import Mathlib

/-!
Verification development for the skydel-remote-api Python client core
(`skydelsdx`): the command/result object model (`commandbase.py`,
`commandresult.py`), the command factory (`commandfactory.py`), the framed
channel (`client.py`) and the session protocol (`clientcmd.py`).

JSON payload text is modelled by its parse tree (`JTree`): Python's
`json.dumps`/`json.loads` string layer is a bijection between well-formed
trees and their texts, so the development works at tree granularity.
Python-side values (what `json.loads` with `object_hook=obj_hook` produces,
and what the `Encoder` consumes) are modelled by `JValue`.
-/

namespace Skydel

/-- Python-side value: primitives, lists, `datetime.date`,
`datetime.datetime`, `MakeObj` field mappings (`obj`) and `CommandBase`
instances (`cmd`, encode-side only; decoding never produces one). -/
inductive JValue where
  | str (s : String)
  | int (n : Int)
  | bool (b : Bool)
  | null
  | date (y m d : Int)
  | datetime (y m d h mi s : Int)
  | arr (xs : List JValue)
  | obj (fields : List (String × JValue))
  | cmd (fields : List (String × JValue))
deriving Repr

/-- JSON tree: the wire text of a payload, as its parse tree. -/
inductive JTree where
  | str (s : String)
  | int (n : Int)
  | bool (b : Bool)
  | null
  | arr (xs : List JTree)
  | obj (fields : List (String × JTree))
deriving Repr

/-- First binding of a key in a field list (Python dict lookup; field lists
with distinct keys model Python dicts exactly). -/
def lookupField : List (String × JValue) → String → Option JValue
  | [], _ => none
  | (k2, v) :: rest, k => if k2 = k then some v else lookupField rest k

/-- Key membership test (`key in d`). -/
def hasKey (fs : List (String × JValue)) (k : String) : Bool :=
  fs.any (fun p => p.1 == k)

/-- `all(field in d for field in ks)`. -/
def hasKeys (fs : List (String × JValue)) (ks : List String) : Bool :=
  ks.all (hasKey fs)

/-- Python dict assignment `d[k] = v`: updates the first binding in place,
else appends (insertion order preserved, as in CPython). -/
def setKV : List (String × JValue) → String → JValue → List (String × JValue)
  | [], k, v => [(k, v)]
  | (k2, v2) :: rest, k, v =>
    if k2 = k then (k, v) :: rest else (k2, v2) :: setKV rest k v

mutual

/-- `json.dumps(..., cls=Encoder)`: `Encoder.default` renders a
`datetime.datetime` as `{Spec:"UTC",Year,..,Second}`, a `datetime.date` as
`{Year,Month,Day}`, a `CommandBase` as its `values` dict, and a `MakeObj`
via its `__dict__`. -/
def encode : JValue → JTree
  | .str s => .str s
  | .int n => .int n
  | .bool b => .bool b
  | .null => .null
  | .date y m d =>
    .obj [("Year", .int y), ("Month", .int m), ("Day", .int d)]
  | .datetime y m d h mi s =>
    .obj [("Spec", .str "UTC"), ("Year", .int y), ("Month", .int m),
          ("Day", .int d), ("Hour", .int h), ("Minute", .int mi),
          ("Second", .int s)]
  | .arr xs => .arr (encodeList xs)
  | .obj fs => .obj (encodeFields fs)
  | .cmd fs => .obj (encodeFields fs)

def encodeList : List JValue → List JTree
  | [] => []
  | x :: xs => encode x :: encodeList xs

def encodeFields : List (String × JValue) → List (String × JTree)
  | [] => []
  | (k, v) :: fs => (k, encode v) :: encodeFields fs

end

/-- `datetime.date`/`datetime.datetime` component arguments accept ints and
bools (a bool is an int in Python); anything else raises `TypeError`. -/
def asTimeInt : JValue → Option Int
  | .int n => some n
  | .bool b => some (if b then 1 else 0)
  | _ => none

def isLeapYear (y : Int) : Bool :=
  (y % 4 == 0 && y % 100 != 0) || y % 400 == 0

def daysInMonth (y m : Int) : Int :=
  if m = 2 then (if isLeapYear y then 29 else 28)
  else if m = 4 || m = 6 || m = 9 || m = 11 then 30
  else 31

/-- Range check performed by the `datetime.date` constructor. -/
def isValidDate (y m d : Int) : Bool :=
  1 ≤ y && y ≤ 9999 && 1 ≤ m && m ≤ 12 && 1 ≤ d && d ≤ daysInMonth y m

/-- Range check performed by the `datetime.datetime` constructor on the
time components. -/
def isValidTime (h mi s : Int) : Bool :=
  0 ≤ h && h < 24 && 0 ≤ mi && mi < 60 && 0 ≤ s && s < 60

/-- `obj_hook`: if the decoded dict has `Year`, `Month`, `Day` keys it
becomes a `datetime.datetime` (when `Spec`, `Hour`, `Minute`, `Second` are
also present) or a `datetime.date`; otherwise a `MakeObj`. `none` models
the constructor raising (`TypeError`/`ValueError`), which propagates out of
`json.loads`. -/
def obj_hook (d : List (String × JValue)) : Option JValue :=
  if hasKeys d ["Year", "Month", "Day"] then
    if hasKeys d ["Spec", "Hour", "Minute", "Second"] then
      match (lookupField d "Year").bind asTimeInt,
            (lookupField d "Month").bind asTimeInt,
            (lookupField d "Day").bind asTimeInt,
            (lookupField d "Hour").bind asTimeInt,
            (lookupField d "Minute").bind asTimeInt,
            (lookupField d "Second").bind asTimeInt with
      | some y, some m, some dd, some h, some mi, some s =>
        if isValidDate y m dd && isValidTime h mi s then
          some (.datetime y m dd h mi s)
        else none
      | _, _, _, _, _, _ => none
    else
      match (lookupField d "Year").bind asTimeInt,
            (lookupField d "Month").bind asTimeInt,
            (lookupField d "Day").bind asTimeInt with
      | some y, some m, some dd =>
        if isValidDate y m dd then some (.date y m dd) else none
      | _, _, _ => none
  else some (.obj d)

mutual

/-- `json.loads(text, object_hook=obj_hook)`: structural decode with the
hook applied bottom-up to every object, including the top level. `none`
models an exception escaping `json.loads`. -/
def decode : JTree → Option JValue
  | .str s => some (.str s)
  | .int n => some (.int n)
  | .bool b => some (.bool b)
  | .null => some .null
  | .arr xs => (decodeList xs).map .arr
  | .obj fs => (decodeFields fs).bind obj_hook

def decodeList : List JTree → Option (List JValue)
  | [] => some []
  | x :: xs =>
    match decode x, decodeList xs with
    | some v, some vs => some (v :: vs)
    | _, _ => none

def decodeFields : List (String × JTree) → Option (List (String × JValue))
  | [] => some []
  | (k, t) :: fs =>
    match decode t, decodeFields fs with
    | some v, some vs => some ((k, v) :: vs)
    | _, _ => none

end

mutual

/-- The value a round trip is expected to reproduce: nested `CommandBase`
values come back as generic field mappings (`MakeObj`), everything else
unchanged. -/
def normalize : JValue → JValue
  | .str s => .str s
  | .int n => .int n
  | .bool b => .bool b
  | .null => .null
  | .date y m d => .date y m d
  | .datetime y m d h mi s => .datetime y m d h mi s
  | .arr xs => .arr (normalizeList xs)
  | .obj fs => .obj (normalizeFields fs)
  | .cmd fs => .obj (normalizeFields fs)

def normalizeList : List JValue → List JValue
  | [] => []
  | x :: xs => normalize x :: normalizeList xs

def normalizeFields : List (String × JValue) → List (String × JValue)
  | [] => []
  | (k, v) :: fs => (k, normalize v) :: normalizeFields fs

end

/-- Keys pairwise distinct (every Python dict has this). -/
def keysUnique : List (String × JValue) → Bool
  | [] => true
  | (k, _) :: fs => !(hasKey fs k) && keysUnique fs

mutual

/-- Valid field-mapping values for the round-trip invariant: date/date-time
components in range, dict keys distinct, and no mapping accidentally
carrying all three of the `Year`/`Month`/`Day` keys (such a mapping would
be turned into a date by `obj_hook`). -/
def validV : JValue → Bool
  | .str _ => true
  | .int _ => true
  | .bool _ => true
  | .null => true
  | .date y m d => isValidDate y m d
  | .datetime y m d h mi s => isValidDate y m d && isValidTime h mi s
  | .arr xs => validList xs
  | .obj fs =>
    keysUnique fs && !(hasKeys fs ["Year", "Month", "Day"]) && validFields fs
  | .cmd fs =>
    keysUnique fs && !(hasKeys fs ["Year", "Month", "Day"]) && validFields fs

def validList : List JValue → Bool
  | [] => true
  | x :: xs => validV x && validList xs

def validFields : List (String × JValue) → Bool
  | [] => true
  | (_, v) :: fs => validV v && validFields fs

end

mutual

/-- Structural equality on values, modelling Python `==` on the scalar
values (UUID strings) the session protocol compares. -/
def beqV : JValue → JValue → Bool
  | .str a, .str b => a == b
  | .int a, .int b => a == b
  | .bool a, .bool b => a == b
  | .null, .null => true
  | .date y m d, .date y2 m2 d2 => y == y2 && m == m2 && d == d2
  | .datetime y m d h mi s, .datetime y2 m2 d2 h2 mi2 s2 =>
    y == y2 && m == m2 && d == d2 && h == h2 && mi == mi2 && s == s2
  | .arr xs, .arr ys => beqVList xs ys
  | .obj fs, .obj gs => beqVFields fs gs
  | .cmd fs, .cmd gs => beqVFields fs gs
  | _, _ => false

def beqVList : List JValue → List JValue → Bool
  | [], [] => true
  | x :: xs, y :: ys => beqV x y && beqVList xs ys
  | _, _ => false

def beqVFields : List (String × JValue) → List (String × JValue) → Bool
  | [], [] => true
  | (k, v) :: fs, (k2, v2) :: gs => k == k2 && beqV v v2 && beqVFields fs gs
  | _, _ => false

end

/-! ## Command model (`commandbase.py`, `commandresult.py`) -/

def CmdNameKey : String := "CmdName"
def CmdUuidKey : String := "CmdUuid"
def CmdTimestampKey : String := "CmdTimestamp"
def CmdTargetId : String := "CmdTargetId"
def RelatedCommandKey : String := "RelatedCommand"

/-- A `CommandBase` instance: the ordered field dict `self.values`. -/
structure Command where
  values : List (String × JValue)
deriving Repr

/-- Python truthiness of the optional string arguments of
`CommandBase.__init__` (`None` and `""` are falsy). -/
def truthy : Option String → Bool
  | none => false
  | some s => !(s == "")

/-- `CommandBase.__init__(cmd_name, target_id)`. `freshUuid` stands for the
text `uuid.uuid1().urn[9:]` produced at construction time; the stored value
is that text wrapped in braces. -/
def mkCommandBase (cmd_name target_id : Option String) (freshUuid : String) :
    Command :=
  let v1 :=
    if truthy cmd_name then
      setKV (setKV [] CmdNameKey (.str (cmd_name.getD "")))
        CmdUuidKey (.str ("\x7b" ++ freshUuid ++ "\x7d"))
    else []
  let v2 :=
    if truthy target_id then setKV v1 CmdTargetId (.str (target_id.getD ""))
    else v1
  ⟨v2⟩

/-- `CommandBase.set`. -/
def Command.set (c : Command) (key : String) (val : JValue) : Command :=
  ⟨setKV c.values key val⟩

/-- `CommandBase.setTimestamp`. -/
def Command.setTimestamp (c : Command) (timestamp : JValue) : Command :=
  ⟨setKV c.values CmdTimestampKey timestamp⟩

/-- `CommandBase.get` / dict lookup (`none` models `KeyError`). -/
def Command.get (c : Command) (key : String) : Option JValue :=
  lookupField c.values key

/-- `CommandBase.getName` (`none` models `KeyError`). -/
def Command.getName (c : Command) : Option JValue :=
  lookupField c.values CmdNameKey

/-- `CommandBase.getUuid` (`none` models `KeyError`). -/
def Command.getUuid (c : Command) : Option JValue :=
  lookupField c.values CmdUuidKey

/-- `CommandBase.toJson`: `json.dumps(self.values, cls=Encoder)`, as a
tree. -/
def Command.toJson (c : Command) : JTree :=
  .obj (encodeFields c.values)

/-- Zero-padded decimal rendering used by `datetime` ISO formatting. -/
def padNat (w n : Nat) : String :=
  let s := toString n
  String.mk (List.replicate (w - s.length) '0') ++ s

mutual

/-- Python `str(value)` for the values a command field can hold. `none`
when the rendering depends on object identity (a nested `CommandBase`
prints with its memory address), which the embedding cannot model. String
escaping inside `repr` is not modelled (fields are quote-free here). -/
def pyStr : JValue → Option String
  | .str s => some s
  | .int n => some (toString n)
  | .bool b => some (if b then "True" else "False")
  | .null => some "None"
  | .date y m d =>
    some (padNat 4 y.toNat ++ "-" ++ padNat 2 m.toNat ++ "-" ++
      padNat 2 d.toNat)
  | .datetime y m d h mi s =>
    some (padNat 4 y.toNat ++ "-" ++ padNat 2 m.toNat ++ "-" ++
      padNat 2 d.toNat ++ " " ++ padNat 2 h.toNat ++ ":" ++
      padNat 2 mi.toNat ++ ":" ++ padNat 2 s.toNat)
  | .arr xs =>
    (pyReprList xs).map (fun ss => "[" ++ String.intercalate ", " ss ++ "]")
  | .obj fs =>
    (pyReprFields fs).map
      (fun ss => "\x7b" ++ String.intercalate ", " ss ++ "\x7d")
  | .cmd _ => none

/-- Python `repr(value)`. -/
def pyRepr : JValue → Option String
  | .str s => some ("\x27" ++ s ++ "\x27")
  | .int n => some (toString n)
  | .bool b => some (if b then "True" else "False")
  | .null => some "None"
  | .date y m d =>
    some ("datetime.date(" ++ toString y ++ ", " ++ toString m ++ ", " ++
      toString d ++ ")")
  | .datetime y m d h mi s =>
    some ("datetime.datetime(" ++ toString y ++ ", " ++ toString m ++ ", " ++
      toString d ++ ", " ++ toString h ++ ", " ++ toString mi ++ ", " ++
      toString s ++ ")")
  | .arr xs =>
    (pyReprList xs).map (fun ss => "[" ++ String.intercalate ", " ss ++ "]")
  | .obj fs =>
    (pyReprFields fs).map
      (fun ss => "\x7b" ++ String.intercalate ", " ss ++ "\x7d")
  | .cmd _ => none

def pyReprList : List JValue → Option (List String)
  | [] => some []
  | x :: xs =>
    match pyRepr x, pyReprList xs with
    | some s, some ss => some (s :: ss)
    | _, _ => none

def pyReprFields : List (String × JValue) → Option (List String)
  | [] => some []
  | (k, v) :: fs =>
    match pyRepr v, pyReprFields fs with
    | some s, some ss => some (("\x27" ++ k ++ "\x27: " ++ s) :: ss)
    | _, _ => none

end

/-- Python string slice `s[:-2]`: drop the last two characters (an empty
result when the string is shorter, as in Python). -/
def sliceDropLast2 (s : String) : String :=
  String.mk s.data.dropLast.dropLast

/-- The `for key, value in self.values.items()` accumulation of
`toString`: appends `key + ": " + str(value) + ", "` for every key not in
`excl`, in dict order. -/
def strParts (excl : List String) : List (String × JValue) → Option String
  | [] => some ""
  | (k, v) :: fs =>
    match strParts excl fs with
    | none => none
    | some rest =>
      if k ∈ excl then some rest
      else
        match pyStr v with
        | some vs => some (k ++ ": " ++ vs ++ ", " ++ rest)
        | none => none

/-- `CommandBase.toString`. -/
def toStringBase (c : Command) : Option String :=
  match lookupField c.values CmdNameKey with
  | some (.str n) =>
    if c.values.length = 2 then some (n ++ "()")
    else
      match strParts [CmdNameKey, CmdUuidKey] c.values with
      | some s => some (sliceDropLast2 (n ++ "(" ++ s) ++ ")")
      | none => none
  | _ => none

/-- `CommandResult.toString` (also excludes `RelatedCommand`). -/
def toStringResult (c : Command) : Option String :=
  match lookupField c.values CmdNameKey with
  | some (.str n) =>
    if c.values.length = 2 then some (n ++ "()")
    else
      match strParts [CmdNameKey, CmdUuidKey, RelatedCommandKey] c.values with
      | some s => some (sliceDropLast2 (n ++ "(" ++ s) ++ ")")
      | none => none
  | _ => none

/-! ## Command factory (`commandfactory.py`)

The class registries (`skydelsdx.commands`, `skydelsdx.plugins.*`) are the
surrounding application's modules, not part of this repository's core
files; they are modelled as name lists and a module tree supplied as a
parameter, which is all `getattr`-based resolution observes. -/

/-- Modelled from the spec: the per-plugin command-class registry
(`skydelsdx.plugins.*`) is supplied by the surrounding application, not by
this repository's core files; a plugin module is its `commands`
attribute's class names and its submodules, which is all the `getattr`
walk observes. -/
inductive ModuleTree where
  | node (commands : List String) (children : List (String × ModuleTree))

def ModuleTree.commands : ModuleTree → List String
  | .node cs _ => cs

def ModuleTree.children : ModuleTree → List (String × ModuleTree)
  | .node _ ch => ch

def findChild : List (String × ModuleTree) → String → Option ModuleTree
  | [], _ => none
  | (n, t) :: rest, k => if n = k then some t else findChild rest k

/-- The `getattr` walk of `targetClassFromName` over the dotted path. -/
def walkPath : ModuleTree → List String → Option ModuleTree
  | t, [] => some t
  | t, p :: ps =>
    match findChild t.children p with
    | none => none
    | some t2 => walkPath t2 ps

/-- Modelled from the spec: the name-to-type lookup capability the factory
depends on — the attribute names of `skydelsdx.commands` and the plugin
module tree. -/
structure Registry where
  commands : List String
  plugins : ModuleTree

/-- `classFromName` resolves iff the name is an attribute of
`skydelsdx.commands`. -/
def classFromName (reg : Registry) (className : String) : Bool :=
  reg.commands.contains className

/-- Python `str.split(".")` over the character list: every occurrence of
`.` separates, empty pieces kept (`""` gives `[""]`, `"a."` gives
`["a", ""]`), as in CPython. -/
def splitDots : List Char → List (List Char)
  | [] => [[]]
  | c :: rest =>
    let r := splitDots rest
    if c = '.' then [] :: r
    else
      match r with
      | [] => [[c]]
      | h :: t => (c :: h) :: t

/-- `targetId.split(".")`. -/
def pySplitDot (s : String) : List String :=
  (splitDots s.data).map String.mk

/-- `targetClassFromName`: split `targetId` on `"."`, walk the plugin
modules, then look the class name up in that module's `commands`. -/
def targetClassFromName (reg : Registry) (className targetId : String) :
    Bool :=
  match walkPath reg.plugins (pySplitDot targetId) with
  | none => false
  | some node => node.commands.contains className

/-- A wire payload text: either text `json.loads` rejects, or well-formed
text with parse tree `t`. -/
inductive Payload where
  | malformed
  | text (t : JTree)

/-- The three distinct exception families `createCommand` can raise:
`parseError` for exceptions escaping `json.loads` (malformed text, or the
decode hook raising); `resolutionError` for `getattr` failures resolving
the class; `lookupError` for `values[...]` failing on the decoded object
(`KeyError`/`TypeError`). -/
inductive FactoryError where
  | parseError
  | resolutionError
  | lookupError
deriving DecidableEq, Repr

/-- `createCommand`. -/
def createCommand (reg : Registry) : Payload → Except FactoryError Command
  | .malformed => .error .parseError
  | .text t =>
    match decode t with
    | none => .error .parseError
    | some v =>
      match v with
      | .obj values =>
        match lookupField values CmdNameKey with
        | some (.str class_name) =>
          if hasKey values CmdTargetId then
            match lookupField values CmdTargetId with
            | some (.str tid) =>
              if targetClassFromName reg class_name tid then .ok ⟨values⟩
              else .error .resolutionError
            | _ => .error .resolutionError
          else
            if classFromName reg class_name then .ok ⟨values⟩
            else .error .resolutionError
        | some _ => .error .resolutionError
        | none => .error .lookupError
      | _ => .error .lookupError

/-- A decoded `CommandResult`: its field dict and the related command
attached by `setRelatedCommand`. -/
structure ResultCmd where
  values : List (String × JValue)
  command : Command
deriving Repr

/-- `CommandResult.getRelatedCommand` (always set by the factory). -/
def ResultCmd.getRelatedCommand (r : ResultCmd) : Command :=
  r.command

/-- `createCommandResult jsonStr`. The wire text's parse tree is `outer`;
its `RelatedCommand` field holds a string whose own parse tree is
`related` (payload text is identified with its tree throughout). A
non-string `RelatedCommand` value makes the nested `json.loads` raise
`TypeError`, a missing one raises `KeyError`. -/
def createCommandResult (reg : Registry) (outer related : JTree) :
    Except FactoryError ResultCmd :=
  match createCommand reg (.text outer) with
  | .error e => .error e
  | .ok c =>
    match lookupField c.values RelatedCommandKey with
    | none => .error .lookupError
    | some (.str _) =>
      match createCommand reg (.text related) with
      | .error e => .error e
      | .ok rc => .ok ⟨c.values, rc⟩
    | some _ => .error .parseError

/-! ## Framed channel, byte level (`client.py`, `clientcmd.py`) -/

/-- Little-endian encoding of `n` on `w` bytes (`struct.pack`). -/
def toLE : Nat → Nat → List Nat
  | 0, _ => []
  | w + 1, n => n % 256 :: toLE w (n / 256)

/-- Little-endian unsigned decoding (`struct.unpack` of `<H` / `<I`). -/
def fromLE : List Nat → Nat
  | [] => 0
  | b :: bs => b + 256 * fromLE bs

/-- `struct.unpack("<i", ...)`: little-endian two's-complement int32. -/
def fromLE32i (bs : List Nat) : Int :=
  let u := fromLE bs
  if u < 2 ^ 31 then (u : Int) else (u : Int) - 2 ^ 32

/-- Exact-size read from an already-received byte sequence; `none` when
fewer bytes are available (the real channel would block, see
`getPacket`). -/
def takeBytes (n : Nat) (s : List Nat) : Option (List Nat × List Nat) :=
  if n ≤ s.length then some (s.take n, s.drop n) else none

/-- `Client._msgId2Packet`: `struct.pack("<B", msgId)`. -/
def msgId2Packet (msgId : Nat) : List Nat :=
  [msgId % 256]

/-- `ClientCmd._sendMessage`: 2-byte little-endian length of the message,
then the message. -/
def sendMessage (message : List Nat) : List Nat :=
  toLE 2 message.length ++ message

/-- One whole frame as written for a message kind and payload (the callers
of `_sendMessage` always pass `msgId2Packet(kind) + payload`). -/
def sendFrame (msgId : Nat) (payload : List Nat) : List Nat :=
  sendMessage (msgId2Packet msgId ++ payload)

/-- `ClientCmd._getPacketSize`: `struct.unpack("<H", self._getPacket(2))`. -/
def getPacketSize (s : List Nat) : Option (Nat × List Nat) :=
  (takeBytes 2 s).map (fun p => (fromLE p.1, p.2))

/-- The byte-level reads performed by `waitCommand` for a `Result` frame's
payload: a 4-byte little-endian signed length, then that many bytes, with
the final byte (`[:-1]`, the NUL terminator) stripped. A negative length
would make `recv` raise, modelled as `none`. -/
def readResultPayload (s : List Nat) : Option (List Nat × List Nat) :=
  match takeBytes 4 s with
  | none => none
  | some (lenb, s1) =>
    let n := fromLE32i lenb
    if n < 0 then none
    else
      match takeBytes n.toNat s1 with
      | none => none
      | some (body, s2) => some (body.dropLast, s2)

/-- The receive loop of `ClientCmd.getServerApiVersion`, on the incoming
byte sequence: read a frame size and kind; on kind `ApiVersion = 2` return
the 4-byte little-endian payload, otherwise skip `size - 1` payload bytes
and loop. `none`: not enough bytes (blocking) or fuel exhausted. (For a
malformed frame of declared size 0 Python would call `recv(-1)` and raise;
here `0 - 1 = 0` in `Nat` — no claim touches that corner.) -/
def apiVersionLoop : Nat → List Nat → Option (Nat × List Nat)
  | 0, _ => none
  | fuel + 1, s =>
    match getPacketSize s with
    | none => none
    | some (msgSize, s1) =>
      match takeBytes 1 s1 with
      | none => none
      | some (idb, s2) =>
        if fromLE idb = 2 then
          match takeBytes 4 s2 with
          | none => none
          | some (vb, s3) => some (fromLE vb, s3)
        else
          match takeBytes (msgSize - 1) s2 with
          | none => none
          | some (_, s3) => apiVersionLoop fuel s3

/-- `ClientCmd.getServerApiVersion`: first component is the frame written
(kind `ApiVersion` carrying the client's own protocol version `<I`), second
is the receive loop's outcome on the incoming bytes. -/
def getServerApiVersion (clientVersion fuel : Nat) (s : List Nat) :
    List Nat × Option (Nat × List Nat) :=
  (sendFrame 2 (toLE 4 clientVersion), apiVersionLoop fuel s)

/-! ## Session protocol receive loop (`ClientCmd.waitCommand`), frame level -/

/-- One received frame: a `Result` frame is carried as the parse tree of
its payload text together with the parse tree of the text in its
`RelatedCommand` field; any other frame as its kind byte and raw payload.
`Result` frames are exactly the frames whose kind byte is `1`. -/
inductive Frame where
  | result (outer related : JTree)
  | other (kind : Nat) (payload : List Nat)

inductive WaitError where
  | factory (e : FactoryError)
  | exhausted
deriving DecidableEq, Repr

/-- `ClientCmd.waitCommand cmd`: skip every frame that is not a `Result`;
decode a `Result` via `createCommandResult` and return it iff
`cmd.getUuid() == result.getRelatedCommand().getUuid()`; otherwise keep
looping. `exhausted` models the supplied frame sequence running out (the
real loop would block for more). -/
def waitCommand (reg : Registry) (cmd : Command) :
    List Frame → Except WaitError (ResultCmd × List Frame)
  | [] => .error .exhausted
  | .other _ _ :: rest => waitCommand reg cmd rest
  | .result outer related :: rest =>
    match createCommandResult reg outer related with
    | .error e => .error (.factory e)
    | .ok r =>
      match cmd.getUuid, r.getRelatedCommand.getUuid with
      | some u1, some u2 =>
        if beqV u1 u2 then .ok (r, rest) else waitCommand reg cmd rest
      | _, _ => .error (.factory .lookupError)

/-! ## Exact-size blocking read (`Client._getPacket`) -/

/-- The connection's receive side: the byte chunks successive `recv` calls
will deliver, and whether the peer has closed (end of stream) after them. -/
structure ByteStream where
  chunks : List (List Nat)
  eof : Bool
deriving DecidableEq, Repr

/-- `socket.recv(size)` on a blocking socket: at most `size` bytes from
the front of the buffered data, `b""` exactly at end of stream after the
peer closed, and blocking (`none`) when no data is buffered and the peer
has not closed. `recv(0)` returns `b""` immediately. -/
def recv (size : Nat) (s : ByteStream) : Option (List Nat × ByteStream) :=
  if size = 0 then some ([], s)
  else
    match s.chunks with
    | [] => if s.eof then some ([], s) else none
    | c :: rest =>
      let rem := c.drop size
      some (c.take size, ⟨if rem.isEmpty then rest else rem :: rest, s.eof⟩)

inductive ReadOutcome where
  | ok (bytes : List Nat) (s : ByteStream)
  | connClosed
  | blocked
deriving DecidableEq, Repr

/-- The `while len(packet) != size` loop of `Client._getPacket`: keep
receiving `size - len(packet)` bytes; a zero-length chunk raises the
connection-closed error. `fuel` bounds the loop steps; exhausting it, like
an unfulfilled `recv`, leaves the call blocked. -/
def getPacketLoop : Nat → Nat → List Nat → ByteStream → ReadOutcome
  | fuel, size, packet, s =>
    if packet.length = size then .ok packet s
    else
      match fuel with
      | 0 => .blocked
      | fuel' + 1 =>
        match recv (size - packet.length) s with
        | none => .blocked
        | some (chunk, s2) =>
          if chunk.length = 0 then .connClosed
          else getPacketLoop fuel' size (packet ++ chunk) s2

/-- `Client._getPacket(size)`: first `recv(size)`, then the accumulation
loop. -/
def getPacket (fuel size : Nat) (s : ByteStream) : ReadOutcome :=
  match recv size s with
  | none => .blocked
  | some (packet, s2) => getPacketLoop fuel size packet s2

/-- Bytes still buffered in the stream. -/
def ByteStream.avail (s : ByteStream) : List Nat :=
  s.chunks.flatten

/-- Well-formed stream: `recv` never delivers an empty chunk except at end
of stream (a blocking socket returns `b""` only on peer close). -/
def ByteStream.WF (s : ByteStream) : Prop :=
  ∀ c ∈ s.chunks, c ≠ []

/-- Concatenation of rendered pieces, in order. -/
def concatAll : List String → String
  | [] => ""
  | p :: ps => p ++ concatAll ps

/-- The pieces joined with a separator between consecutive ones — the
`field1: value1, field2: value2` shape of a `toString` rendering. -/
def joinSep (sep : String) : List String → String
  | [] => ""
  | [p] => p
  | p :: ps => p ++ sep ++ joinSep sep ps

/-- The payload fields of a mapping: every field whose key is not in the
excluded (reserved) list, in dict order. -/
def payloadFields (excl : List String) (fs : List (String × JValue)) :
    List (String × JValue) :=
  fs.filter (fun p => !(excl.contains p.1))

/-- Each payload field rendered as `key: str(value)`, in order (`none`
when some value's `str()` is identity-dependent). -/
def renderFields : List (String × JValue) → Option (List String)
  | [] => some []
  | (k, v) :: fs =>
    match pyStr v, renderFields fs with
    | some vs, some ss => some ((k ++ ": " ++ vs) :: ss)
    | _, _ => none

/-- Key membership at the tree level (the wire text's top-level object). -/
def hasKeyT (fs : List (String × JTree)) (k : String) : Bool :=
  fs.any (fun p => p.1 == k)

/-- The bytes of a sequence of frames as written by the peer, each in the
frame format of 4.1. -/
def framesBytes : List (Nat × List Nat) → List Nat
  | [] => []
  | (k, p) :: fs => sendFrame k p ++ framesBytes fs

/-- A frame `waitCommand cmd` discards and keeps looping on: a frame of
non-`Result` kind, or a well-formed `Result` whose related command's UUID
differs from `cmd`'s. -/
def Skippable (reg : Registry) (cmd : Command) (f : Frame) : Prop :=
  (∃ k p, f = .other k p ∧ k ≠ 1) ∨
  (∃ o rel r u1 u2, f = .result o rel ∧
    createCommandResult reg o rel = .ok r ∧
    cmd.getUuid = some u1 ∧ r.getRelatedCommand.getUuid = some u2 ∧
    beqV u1 u2 = false)

/-! ## Round trip of the field-mapping codec (spec 4.2) -/

theorem hasKey_normalizeFields (fs : List (String × JValue)) (k : String) :
    hasKey (normalizeFields fs) k = hasKey fs k := by
  induction fs with
  | nil => rfl
  | cons p fs ih =>
    obtain ⟨k2, v⟩ := p
    simp only [normalizeFields, hasKey, List.any_cons] at *
    rw [ih]

theorem hasKeys_normalizeFields (fs : List (String × JValue))
    (ks : List String) :
    hasKeys (normalizeFields fs) ks = hasKeys fs ks := by
  induction ks with
  | nil => rfl
  | cons k ks ih =>
    simp [hasKeys, List.all_cons] at *
    rw [hasKey_normalizeFields]
    by_cases h : hasKey fs k = true <;> simp [h, ih]

mutual

theorem decode_encode :
    ∀ v : JValue, validV v = true → decode (encode v) = some (normalize v)
  | .str _, _ => rfl
  | .int _, _ => rfl
  | .bool _, _ => rfl
  | .null, _ => rfl
  | .date y m d, hv => by
    have h : isValidDate y m d = true := by simpa [validV] using hv
    simp [encode, decode, decodeFields, obj_hook, hasKeys, hasKey,
      lookupField, asTimeInt, h, normalize]
  | .datetime y m d h mi s, hv => by
    have hd : isValidDate y m d = true := by
      have := hv
      simp [validV, Bool.and_eq_true] at this
      exact this.1
    have ht : isValidTime h mi s = true := by
      have := hv
      simp [validV, Bool.and_eq_true] at this
      exact this.2
    simp [encode, decode, decodeFields, obj_hook, hasKeys, hasKey,
      lookupField, asTimeInt, hd, ht, normalize]
  | .arr xs, hv => by
    have h := decodeList_encodeList xs (by simpa [validV] using hv)
    simp [encode, decode, h, normalize]
  | .obj fs, hv => by
    have h' := hv
    simp only [validV, Bool.and_eq_true, Bool.not_eq_true'] at h'
    obtain ⟨⟨-, h2⟩, h3⟩ := h'
    have hf := decodeFields_encodeFields fs h3
    simp [encode, decode, hf, obj_hook, hasKeys_normalizeFields, h2,
      normalize]
  | .cmd fs, hv => by
    have h' := hv
    simp only [validV, Bool.and_eq_true, Bool.not_eq_true'] at h'
    obtain ⟨⟨-, h2⟩, h3⟩ := h'
    have hf := decodeFields_encodeFields fs h3
    simp [encode, decode, hf, obj_hook, hasKeys_normalizeFields, h2,
      normalize]

theorem decodeList_encodeList :
    ∀ xs : List JValue, validList xs = true →
      decodeList (encodeList xs) = some (normalizeList xs)
  | [], _ => rfl
  | x :: xs, h => by
    have h1 : validV x = true := by
      have := h
      simp [validList, Bool.and_eq_true] at this
      exact this.1
    have h2 : validList xs = true := by
      have := h
      simp [validList, Bool.and_eq_true] at this
      exact this.2
    simp [encodeList, decodeList, decode_encode x h1,
      decodeList_encodeList xs h2, normalizeList]

theorem decodeFields_encodeFields :
    ∀ fs : List (String × JValue), validFields fs = true →
      decodeFields (encodeFields fs) = some (normalizeFields fs)
  | [], _ => rfl
  | (k, v) :: fs, h => by
    have h1 : validV v = true := by
      have := h
      simp [validFields, Bool.and_eq_true] at this
      exact this.1
    have h2 : validFields fs = true := by
      have := h
      simp [validFields, Bool.and_eq_true] at this
      exact this.2
    simp [encodeFields, decodeFields, decode_encode v h1,
      decodeFields_encodeFields fs h2, normalizeFields]

end

/-- C2 counterexample: a field mapping whose payload fields are named
`Year`, `Month`, `Day` does not round-trip — `obj_hook` turns the decoded
object into a `datetime.date`, losing the `CmdName`/`CmdUuid` pairs, so
`decode (encode m)` is not the field mapping `m` (nor its nested-command
normalisation). -/
theorem C2_roundtrip_counterexample :
    decode (encode (.cmd [("CmdName", .str "GetVersion"),
      ("CmdUuid", .str "\x7bu1\x7d"), ("Year", .int 2020),
      ("Month", .int 1), ("Day", .int 2)])) = some (.date 2020 1 2) ∧
    decode (encode (.cmd [("CmdName", .str "GetVersion"),
      ("CmdUuid", .str "\x7bu1\x7d"), ("Year", .int 2020),
      ("Month", .int 1), ("Day", .int 2)])) ≠
      some (normalize (.cmd [("CmdName", .str "GetVersion"),
        ("CmdUuid", .str "\x7bu1\x7d"), ("Year", .int 2020),
        ("Month", .int 1), ("Day", .int 2)])) := by
  refine ⟨rfl, ?_⟩
  intro h
  rw [show decode (encode (.cmd [("CmdName", .str "GetVersion"),
      ("CmdUuid", .str "\x7bu1\x7d"), ("Year", .int 2020),
      ("Month", .int 1), ("Day", .int 2)])) = some (.date 2020 1 2)
    from rfl] at h
  simp [normalize, normalizeFields] at h

/-- C2 (amended): for every valid field mapping — distinct keys per
object, date/date-time components in range, and no object other than a
date/date-time encoding carrying all three of the `Year`/`Month`/`Day`
keys — decoding the encoding preserves every field name/value pair, with
nested Commands preserved as nested field mappings (`normalize`); in
particular `parse(toJson())` reproduces a command's values as a field
mapping with the same pairs. -/
theorem C2_roundtrip_amended :
    (∀ v : JValue, validV v = true →
      decode (encode v) = some (normalize v)) ∧
    (∀ c : Command, validV (.cmd c.values) = true →
      decode c.toJson = some (.obj (normalizeFields c.values))) := by
  refine ⟨decode_encode, ?_⟩
  intro c h
  have h2 := decode_encode (.cmd c.values) h
  simpa [Command.toJson, encode, normalize] using h2

/-- Witness for C2: a command value holding a string, an int, a date, a
date-time and a nested command round-trips. -/
theorem C2_roundtrip_amended_witness :
    validV (.cmd [("CmdName", .str "SetPosition"),
      ("CmdUuid", .str "\x7bu1\x7d"), ("Lat", .int 45),
      ("Start", .date 2024 2 29), ("When", .datetime 2021 3 4 5 6 7),
      ("Sub", .cmd [("CmdName", .str "Inner"),
        ("CmdUuid", .str "\x7bu2\x7d")])]) = true ∧
    decode (encode (.cmd [("CmdName", .str "SetPosition"),
      ("CmdUuid", .str "\x7bu1\x7d"), ("Lat", .int 45),
      ("Start", .date 2024 2 29), ("When", .datetime 2021 3 4 5 6 7),
      ("Sub", .cmd [("CmdName", .str "Inner"),
        ("CmdUuid", .str "\x7bu2\x7d")])])) =
      some (normalize (.cmd [("CmdName", .str "SetPosition"),
        ("CmdUuid", .str "\x7bu1\x7d"), ("Lat", .int 45),
        ("Start", .date 2024 2 29), ("When", .datetime 2021 3 4 5 6 7),
        ("Sub", .cmd [("CmdName", .str "Inner"),
          ("CmdUuid", .str "\x7bu2\x7d")])])) ∧
    decode (Command.toJson ⟨[("CmdName", .str "Ping"),
      ("CmdUuid", .str "\x7bu3\x7d")]⟩) =
      some (.obj (normalizeFields [("CmdName", .str "Ping"),
        ("CmdUuid", .str "\x7bu3\x7d")])) :=
  ⟨rfl, C2_roundtrip_amended.1 _ rfl, C2_roundtrip_amended.2 ⟨_⟩ rfl⟩

/-! ## Uuid lifecycle (spec 3, `CommandBase.__init__`/`set`/`setTimestamp`) -/

theorem lookupField_setKV_ne (fs : List (String × JValue)) (k k2 : String)
    (v : JValue) (h : k ≠ k2) :
    lookupField (setKV fs k v) k2 = lookupField fs k2 := by
  induction fs with
  | nil => simp [setKV, lookupField, h]
  | cons p fs ih =>
    obtain ⟨k3, v3⟩ := p
    by_cases h3 : k3 = k
    · subst h3
      simp [setKV, lookupField, h]
    · simp only [setKV, if_neg h3, lookupField]
      by_cases h4 : k3 = k2
      · rw [if_pos h4, if_pos h4]
      · rw [if_neg h4, if_neg h4, ih]

theorem brace_wrap_inj {a b : String}
    (h : "\x7b" ++ a ++ "\x7d" = "\x7b" ++ b ++ "\x7d") : a = b := by
  have hd := congrArg String.data h
  simp only [String.data_append] at hd
  have h2 := List.append_cancel_right hd
  have h3 := List.append_cancel_left h2
  cases a
  cases b
  exact congrArg String.mk h3

theorem mkCommandBase_getUuid (n : String) (tid : Option String)
    (u : String) (hn : n ≠ "") :
    (mkCommandBase (some n) tid u).getUuid =
      some (.str ("\x7b" ++ u ++ "\x7d")) := by
  have ht : truthy (some n) = true := by simp [truthy, hn]
  by_cases h2 : truthy tid <;>
    simp [mkCommandBase, ht, h2, Command.getUuid, setKV, lookupField,
      CmdNameKey, CmdUuidKey, CmdTargetId]

/-- C4 counterexample: `set("CmdUuid", ...)` is an operation on the
command that mutates the Uuid assigned at construction. -/
theorem C4_uuid_counterexample :
    ((mkCommandBase (some "GetVersion") none "u1").set CmdUuidKey
      (.str "evil")).getUuid ≠
    (mkCommandBase (some "GetVersion") none "u1").getUuid := by
  intro h
  rw [show ((mkCommandBase (some "GetVersion") none "u1").set CmdUuidKey
      (.str "evil")).getUuid = some (.str "evil") from rfl] at h
  rw [show (mkCommandBase (some "GetVersion") none "u1").getUuid =
      some (.str "\x7bu1\x7d") from rfl] at h
  injection h with h2
  injection h2 with h3
  exact absurd h3 (by decide)

/-- C4 (amended): when a command name is given, construction assigns the
Uuid (the braced fresh `uuid1` text); `setTimestamp` and `set` of any key
other than `CmdUuid` never change it — but `set` of the `CmdUuid` key
itself does replace it, so not every operation preserves it; and commands
constructed from distinct fresh `uuid1` texts (the library guarantee for
`uuid.uuid1()`) carry distinct Uuids. -/
theorem C4_uuid_invariant_amended :
    (∀ (n : String) (tid : Option String) (u : String), n ≠ "" →
      (mkCommandBase (some n) tid u).getUuid =
        some (.str ("\x7b" ++ u ++ "\x7d"))) ∧
    (∀ (c : Command) (k : String) (v : JValue), k ≠ CmdUuidKey →
      (c.set k v).getUuid = c.getUuid) ∧
    (∀ (c : Command) (t : JValue),
      (c.setTimestamp t).getUuid = c.getUuid) ∧
    (∀ (gen : Nat → String), Function.Injective gen →
      ∀ (i j : Nat) (n1 n2 : String) (t1 t2 : Option String),
        i ≠ j → n1 ≠ "" → n2 ≠ "" →
        (mkCommandBase (some n1) t1 (gen i)).getUuid ≠
          (mkCommandBase (some n2) t2 (gen j)).getUuid) := by
  refine ⟨fun n tid u hn => mkCommandBase_getUuid n tid u hn, ?_, ?_, ?_⟩
  · intro c k v hk
    exact lookupField_setKV_ne c.values k CmdUuidKey v hk
  · intro c t
    exact lookupField_setKV_ne c.values CmdTimestampKey CmdUuidKey t
      (by decide)
  · intro gen hinj i j n1 n2 t1 t2 hij h1 h2 h
    rw [mkCommandBase_getUuid n1 t1 (gen i) h1,
      mkCommandBase_getUuid n2 t2 (gen j) h2] at h
    injection h with h3
    injection h3 with h4
    exact hij (hinj (brace_wrap_inj h4))

/-- Witness for C4: concrete instances of each conjunct. -/
theorem C4_uuid_invariant_amended_witness :
    (mkCommandBase (some "GetVersion") none "u1").getUuid =
      some (.str ("\x7b" ++ "u1" ++ "\x7d")) ∧
    ((⟨[("CmdUuid", .str "z")]⟩ : Command).set "Power" (.int 3)).getUuid =
      (⟨[("CmdUuid", .str "z")]⟩ : Command).getUuid ∧
    ((⟨[("CmdUuid", .str "z")]⟩ : Command).setTimestamp
        (.datetime 2021 1 1 0 0 0)).getUuid =
      (⟨[("CmdUuid", .str "z")]⟩ : Command).getUuid ∧
    (mkCommandBase (some "A") none
        (String.mk (List.replicate 0 'a'))).getUuid ≠
      (mkCommandBase (some "B") none
        (String.mk (List.replicate 1 'a'))).getUuid := by
  have hinj : Function.Injective
      (fun n : Nat => String.mk (List.replicate n 'a')) := by
    intro a b h
    have h2 := congrArg String.data h
    have h3 := congrArg List.length h2
    simpa using h3
  exact ⟨C4_uuid_invariant_amended.1 "GetVersion" none "u1" (by decide),
    C4_uuid_invariant_amended.2.1 _ "Power" (.int 3) (by decide),
    C4_uuid_invariant_amended.2.2.1 _ (.datetime 2021 1 1 0 0 0),
    C4_uuid_invariant_amended.2.2.2 _ hinj 0 1 "A" "B" none none
      (by decide) (by decide) (by decide)⟩

/-! ## String formatting (`toString`, spec 4.2) -/

theorem sliceDropLast2_append_comma (x : String) :
    sliceDropLast2 (x ++ ", ") = x := by
  obtain ⟨d⟩ := x
  show String.mk ((d ++ [',', ' ']).dropLast.dropLast) = String.mk d
  rw [show d ++ [',', ' '] = (d ++ [',']) ++ [' '] by simp]
  rw [List.dropLast_concat, List.dropLast_concat]

/-- C9 counterexample: a Result whose fields are exactly the reserved
`Name`/`Uuid`/`RelatedCommand` renders as `"Nam)"`, not `"Name()"` — the
`len == 2` early-out does not fire (three fields) and the unconditional
`[:-2]` slice then eats into the name. -/
theorem C9_toString_counterexample :
    toStringResult ⟨[(CmdNameKey, .str "Name"), (CmdUuidKey, .str "u"),
      (RelatedCommandKey, .str "rc")]⟩ = some "Nam)" ∧
    some "Nam)" ≠ some ("Name" ++ "()") := by
  refine ⟨rfl, ?_⟩
  intro h
  injection h with h2
  exact absurd h2 (by decide)

theorem strParts_renderFields (excl : List String) :
    ∀ (fs : List (String × JValue)) (parts : List String),
      renderFields (payloadFields excl fs) = some parts →
      strParts excl fs = some (concatAll (parts.map (fun p => p ++ ", "))) := by
  intro fs
  induction fs with
  | nil =>
    intro parts h
    simp only [payloadFields, List.filter_nil, renderFields] at h
    injection h with h2
    subst h2
    rfl
  | cons p fs ih =>
    obtain ⟨k, v⟩ := p
    intro parts h
    by_cases hk : excl.contains k
    · have hk2 : k ∈ excl := by simpa using hk
      have h2 : renderFields (payloadFields excl fs) = some parts := by
        simpa [payloadFields, List.filter_cons, hk2] using h
      simp only [strParts, ih parts h2]
      rw [if_pos hk2]
    · have hk2 : k ∉ excl := by simpa using hk
      have h2 : (match pyStr v, renderFields (payloadFields excl fs) with
          | some vs, some ss => some ((k ++ ": " ++ vs) :: ss)
          | _, _ => none) = some parts := by
        simpa [payloadFields, List.filter_cons, hk2, renderFields] using h
      cases hv : pyStr v with
      | none => rw [hv] at h2; simp at h2
      | some vs =>
        rw [hv] at h2
        cases hrf : renderFields (payloadFields excl fs) with
        | none => rw [hrf] at h2; simp at h2
        | some ss =>
          rw [hrf] at h2
          replace h2 : some ((k ++ ": " ++ vs) :: ss) = some parts := h2
          injection h2 with h3
          subst h3
          simp only [strParts, ih ss hrf]
          rw [if_neg hk2, hv]
          simp [concatAll]

theorem concat_comma :
    ∀ (parts : List String), parts ≠ [] →
      concatAll (parts.map (fun p => p ++ ", ")) =
        joinSep ", " parts ++ ", " := by
  intro parts
  induction parts with
  | nil => intro h; exact absurd rfl h
  | cons p ps ih =>
    intro _
    cases ps with
    | nil => simp [concatAll, joinSep]
    | cons q qs =>
      have ih2 := ih (by simp)
      simp only [List.map, concatAll] at ih2 ⊢
      rw [ih2]
      show (p ++ ", ") ++ (joinSep ", " (q :: qs) ++ ", ") =
        joinSep ", " (p :: q :: qs) ++ ", "
      rw [show joinSep ", " (p :: q :: qs) =
        p ++ ", " ++ joinSep ", " (q :: qs) from rfl]
      simp [String.append_assoc]

theorem strParts_format (excl : List String) (fs : List (String × JValue))
    (parts : List String)
    (hren : renderFields (payloadFields excl fs) = some parts)
    (hne : parts ≠ []) :
    strParts excl fs = some (joinSep ", " parts ++ ", ") := by
  rw [strParts_renderFields excl fs parts hren, concat_comma parts hne]

/-- C9 (amended): a base command whose two fields are `Name` and `Uuid`
renders as `Name()`; every command renders its payload fields — all fields
except the reserved `Name`/`Uuid` (and, for Results, `RelatedCommand`) —
in dict order as `Name(field1: value1, field2: value2, ...)`; but a
Result carrying exactly its three reserved fields
(`Name`/`Uuid`/`RelatedCommand`) renders as the `[:-2]` slice of
`Name(` followed by `)` (i.e. the name minus its last character, then a
closing parenthesis), not `Name()`. -/
theorem C9_toString_amended :
    (∀ (n : String) (u : JValue),
      toStringBase ⟨[(CmdNameKey, .str n), (CmdUuidKey, u)]⟩ =
        some (n ++ "()")) ∧
    (∀ (n : String) (u rel : JValue),
      toStringResult ⟨[(CmdNameKey, .str n), (CmdUuidKey, u),
        (RelatedCommandKey, rel)]⟩ =
        some (sliceDropLast2 (n ++ "(") ++ ")")) ∧
    (∀ (c : Command) (n : String) (parts : List String),
      lookupField c.values CmdNameKey = some (.str n) →
      c.values.length ≠ 2 →
      renderFields (payloadFields [CmdNameKey, CmdUuidKey] c.values) =
        some parts →
      parts ≠ [] →
      toStringBase c = some (n ++ "(" ++ joinSep ", " parts ++ ")")) ∧
    (∀ (c : Command) (n : String) (parts : List String),
      lookupField c.values CmdNameKey = some (.str n) →
      c.values.length ≠ 2 →
      renderFields (payloadFields [CmdNameKey, CmdUuidKey,
        RelatedCommandKey] c.values) = some parts →
      parts ≠ [] →
      toStringResult c = some (n ++ "(" ++ joinSep ", " parts ++ ")")) := by
  refine ⟨?_, ?_, ?_, ?_⟩
  · intro n u
    simp [toStringBase, lookupField, CmdNameKey, CmdUuidKey]
  · intro n u rel
    simp [toStringResult, lookupField, strParts, CmdNameKey, CmdUuidKey,
      RelatedCommandKey]
  · intro c n parts hname hlen hren hne
    simp only [toStringBase, hname]
    rw [if_neg hlen]
    rw [strParts_format _ _ _ hren hne]
    show some (sliceDropLast2 (n ++ "(" ++ (joinSep ", " parts ++ ", "))
        ++ ")") =
      some (n ++ "(" ++ joinSep ", " parts ++ ")")
    rw [show n ++ "(" ++ (joinSep ", " parts ++ ", ") =
      (n ++ "(" ++ joinSep ", " parts) ++ ", " by simp [String.append_assoc]]
    rw [sliceDropLast2_append_comma]
  · intro c n parts hname hlen hren hne
    simp only [toStringResult, hname]
    rw [if_neg hlen]
    rw [strParts_format _ _ _ hren hne]
    show some (sliceDropLast2 (n ++ "(" ++ (joinSep ", " parts ++ ", "))
        ++ ")") =
      some (n ++ "(" ++ joinSep ", " parts ++ ")")
    rw [show n ++ "(" ++ (joinSep ", " parts ++ ", ") =
      (n ++ "(" ++ joinSep ", " parts) ++ ", " by simp [String.append_assoc]]
    rw [sliceDropLast2_append_comma]

/-- Witness for C9: the empty-payload base case, the Result anomaly, a
base command with two payload fields, and a Result with a payload field. -/
theorem C9_toString_amended_witness :
    toStringBase ⟨[(CmdNameKey, .str "Stop"), (CmdUuidKey, .str "u")]⟩ =
      some ("Stop" ++ "()") ∧
    toStringResult ⟨[(CmdNameKey, .str "Name"), (CmdUuidKey, .str "u"),
      (RelatedCommandKey, .str "rc")]⟩ =
      some (sliceDropLast2 ("Name" ++ "(") ++ ")") ∧
    toStringBase ⟨[(CmdNameKey, .str "SetPower"), (CmdUuidKey, .str "u"),
      ("Power", .int 10), ("State", .str "on")]⟩ =
      some ("SetPower" ++ "(" ++
        joinSep ", " ["Power" ++ ": " ++ "10", "State" ++ ": " ++ "on"] ++
        ")") ∧
    toStringResult ⟨[(CmdNameKey, .str "GetPowerResult"),
      (CmdUuidKey, .str "u"), (RelatedCommandKey, .str "rc"),
      ("Power", .int 10)]⟩ =
      some ("GetPowerResult" ++ "(" ++
        joinSep ", " ["Power" ++ ": " ++ "10"] ++ ")") :=
  ⟨C9_toString_amended.1 "Stop" (.str "u"),
   C9_toString_amended.2.1 "Name" (.str "u") (.str "rc"),
   C9_toString_amended.2.2.1
     ⟨[(CmdNameKey, .str "SetPower"), (CmdUuidKey, .str "u"),
       ("Power", .int 10), ("State", .str "on")]⟩
     "SetPower" ["Power" ++ ": " ++ "10", "State" ++ ": " ++ "on"]
     rfl (by decide) rfl (by decide),
   C9_toString_amended.2.2.2
     ⟨[(CmdNameKey, .str "GetPowerResult"), (CmdUuidKey, .str "u"),
       (RelatedCommandKey, .str "rc"), ("Power", .int 10)]⟩
     "GetPowerResult" ["Power" ++ ": " ++ "10"]
     rfl (by decide) rfl (by decide)⟩

/-! ## Command factory (spec 4.3) -/

theorem lookupField_hasKey {fs : List (String × JValue)} {k : String}
    {v : JValue} (h : lookupField fs k = some v) : hasKey fs k = true := by
  induction fs with
  | nil => simp [lookupField] at h
  | cons p fs ih =>
    obtain ⟨k2, v2⟩ := p
    by_cases h2 : k2 = k
    · simp [hasKey, h2]
    · simp only [lookupField, if_neg h2] at h
      have h3 := ih h
      simp only [hasKey, List.any_cons] at *
      rw [h3]
      simp

theorem createCommand_ok_core (reg : Registry) (t : JTree)
    (dfields : List (String × JValue)) (name : String)
    (hdec : decode t = some (.obj dfields))
    (hname : lookupField dfields CmdNameKey = some (.str name))
    (htid : hasKey dfields CmdTargetId = false)
    (hreg : classFromName reg name = true) :
    createCommand reg (.text t) = .ok ⟨dfields⟩ := by
  simp [createCommand, hdec, hname, htid, hreg]

theorem createCommand_ok_target (reg : Registry) (t : JTree)
    (dfields : List (String × JValue)) (name tid : String)
    (hdec : decode t = some (.obj dfields))
    (hname : lookupField dfields CmdNameKey = some (.str name))
    (htid : lookupField dfields CmdTargetId = some (.str tid))
    (hreg : targetClassFromName reg name tid = true) :
    createCommand reg (.text t) = .ok ⟨dfields⟩ := by
  simp [createCommand, hdec, hname, lookupField_hasKey htid, htid, hreg]

/-- C5: for every well-formed wire payload whose decoded top level is a
field mapping carrying a registered command name (directly, or through a
resolvable `TargetId` plugin path), `createCommand` attaches the decoded
mapping as the instance's state without running `__init__`: the returned
command's `Uuid` and `Timestamp` are exactly the wire-provided values and
no fresh identity is generated. -/
theorem C5_createCommand_attaches_wire_state :
    (∀ (reg : Registry) (t : JTree) (dfields : List (String × JValue))
        (name : String) (u ts : JValue),
      decode t = some (.obj dfields) →
      lookupField dfields CmdNameKey = some (.str name) →
      hasKey dfields CmdTargetId = false →
      classFromName reg name = true →
      lookupField dfields CmdUuidKey = some u →
      lookupField dfields CmdTimestampKey = some ts →
      createCommand reg (.text t) = .ok ⟨dfields⟩ ∧
        Command.getUuid ⟨dfields⟩ = some u ∧
        Command.get ⟨dfields⟩ CmdTimestampKey = some ts) ∧
    (∀ (reg : Registry) (t : JTree) (dfields : List (String × JValue))
        (name tid : String) (u : JValue),
      decode t = some (.obj dfields) →
      lookupField dfields CmdNameKey = some (.str name) →
      lookupField dfields CmdTargetId = some (.str tid) →
      targetClassFromName reg name tid = true →
      lookupField dfields CmdUuidKey = some u →
      createCommand reg (.text t) = .ok ⟨dfields⟩ ∧
        Command.getUuid ⟨dfields⟩ = some u) := by
  constructor
  · intro reg t dfields name u ts hdec hname htid hreg hu hts
    exact ⟨createCommand_ok_core reg t dfields name hdec hname htid hreg,
      hu, hts⟩
  · intro reg t dfields name tid u hdec hname htid hreg hu
    exact ⟨createCommand_ok_target reg t dfields name tid hdec hname htid
      hreg, hu⟩

/-- Witness for C5: a core-set payload carrying a wire Uuid and a wire
timestamp, and a plugin payload routed by `TargetId`. -/
theorem C5_createCommand_attaches_wire_state_witness :
    createCommand ⟨["SetPower"], .node [] []⟩ (.text (.obj
      [("CmdName", .str "SetPower"), ("CmdUuid", .str "\x7bu9\x7d"),
       ("CmdTimestamp", .obj [("Spec", .str "UTC"), ("Year", .int 2021),
         ("Month", .int 3), ("Day", .int 4), ("Hour", .int 5),
         ("Minute", .int 6), ("Second", .int 7)])])) =
      .ok ⟨[("CmdName", .str "SetPower"), ("CmdUuid", .str "\x7bu9\x7d"),
        ("CmdTimestamp", .datetime 2021 3 4 5 6 7)]⟩ ∧
    Command.getUuid ⟨[("CmdName", .str "SetPower"),
      ("CmdUuid", .str "\x7bu9\x7d"),
      ("CmdTimestamp", .datetime 2021 3 4 5 6 7)]⟩ =
      some (.str "\x7bu9\x7d") ∧
    createCommand ⟨[], .node [] [("osnma", .node []
        [("sub", .node ["PluginCmd"] [])])]⟩ (.text (.obj
      [("CmdName", .str "PluginCmd"), ("CmdUuid", .str "\x7bu2\x7d"),
       ("CmdTargetId", .str "osnma.sub")])) =
      .ok ⟨[("CmdName", .str "PluginCmd"), ("CmdUuid", .str "\x7bu2\x7d"),
        ("CmdTargetId", .str "osnma.sub")]⟩ := by
  have h1 := C5_createCommand_attaches_wire_state.1
    ⟨["SetPower"], .node [] []⟩
    (.obj [("CmdName", .str "SetPower"), ("CmdUuid", .str "\x7bu9\x7d"),
      ("CmdTimestamp", .obj [("Spec", .str "UTC"), ("Year", .int 2021),
        ("Month", .int 3), ("Day", .int 4), ("Hour", .int 5),
        ("Minute", .int 6), ("Second", .int 7)])])
    [("CmdName", .str "SetPower"), ("CmdUuid", .str "\x7bu9\x7d"),
      ("CmdTimestamp", .datetime 2021 3 4 5 6 7)]
    "SetPower" (.str "\x7bu9\x7d") (.datetime 2021 3 4 5 6 7)
    rfl rfl rfl rfl rfl rfl
  have h2 := C5_createCommand_attaches_wire_state.2
    ⟨[], .node [] [("osnma", .node [] [("sub", .node ["PluginCmd"] [])])]⟩
    (.obj [("CmdName", .str "PluginCmd"), ("CmdUuid", .str "\x7bu2\x7d"),
      ("CmdTargetId", .str "osnma.sub")])
    [("CmdName", .str "PluginCmd"), ("CmdUuid", .str "\x7bu2\x7d"),
      ("CmdTargetId", .str "osnma.sub")]
    "PluginCmd" "osnma.sub" (.str "\x7bu2\x7d") rfl rfl rfl rfl rfl
  exact ⟨h1.1, h1.2.1, h2.1⟩

theorem decodeFields_hasKey {fs : List (String × JTree)}
    {dfs : List (String × JValue)} (h : decodeFields fs = some dfs)
    (k : String) : hasKey dfs k = hasKeyT fs k := by
  induction fs generalizing dfs with
  | nil =>
    simp [decodeFields] at h
    subst h
    rfl
  | cons p fs ih =>
    obtain ⟨k2, t⟩ := p
    simp only [decodeFields] at h
    cases hd : decode t with
    | none => rw [hd] at h; simp at h
    | some v =>
      rw [hd] at h
      cases hds : decodeFields fs with
      | none => rw [hds] at h; simp at h
      | some ds =>
        rw [hds] at h
        simp only [] at h
        injection h with h2
        subst h2
        simp only [hasKey, hasKeyT, List.any_cons]
        rw [show (ds.any fun p => p.1 == k) = hasKey ds k from rfl,
          ih hds]
        rfl

theorem obj_hook_not_obj {d : List (String × JValue)}
    (h : hasKeys d ["Year", "Month", "Day"] = true) :
    ∀ fs, obj_hook d ≠ some (.obj fs) := by
  intro fs hc
  unfold obj_hook at hc
  rw [if_pos h] at hc
  split at hc
  · split at hc
    · split at hc <;> simp_all
    · simp_all
  · split at hc
    · split at hc <;> simp_all
    · simp_all

/-- C10: a JSON payload whose top-level object carries fields named
`Year`, `Month` and `Day` never yields a command from `createCommand` —
even with `CmdName`/`CmdUuid` present, the decode hook turns the top level
into a date (or date-time, or raises), so the factory cannot read the
command name. -/
theorem C10_date_shaped_payload_rejected :
    ∀ (reg : Registry) (fs : List (String × JTree)) (c : Command),
      hasKeyT fs "Year" = true → hasKeyT fs "Month" = true →
      hasKeyT fs "Day" = true →
      createCommand reg (.text (.obj fs)) ≠ .ok c := by
  intro reg fs c hY hM hD hok
  cases hdf : decodeFields fs with
  | none => simp [createCommand, decode, hdf] at hok
  | some dfs =>
    have hkeys : hasKeys dfs ["Year", "Month", "Day"] = true := by
      simp [hasKeys, decodeFields_hasKey hdf, hY, hM, hD]
    cases hh : obj_hook dfs with
    | none => simp [createCommand, decode, hdf, hh] at hok
    | some v =>
      cases v with
      | obj fs2 => exact obj_hook_not_obj hkeys fs2 hh
      | str s => simp [createCommand, decode, hdf, hh] at hok
      | int n => simp [createCommand, decode, hdf, hh] at hok
      | bool b => simp [createCommand, decode, hdf, hh] at hok
      | null => simp [createCommand, decode, hdf, hh] at hok
      | date y m dd => simp [createCommand, decode, hdf, hh] at hok
      | datetime y m dd h2 mi s2 =>
        simp [createCommand, decode, hdf, hh] at hok
      | arr xs => simp [createCommand, decode, hdf, hh] at hok
      | cmd fs2 => simp [createCommand, decode, hdf, hh] at hok

/-- Witness for C10: a payload with `CmdName`, `CmdUuid` and the three
date keys (its name even registered) yields no command. -/
theorem C10_date_shaped_payload_rejected_witness :
    hasKeyT [("CmdName", JTree.str "X"), ("CmdUuid", JTree.str "u"),
      ("Year", JTree.int 1), ("Month", JTree.int 1), ("Day", JTree.int 1)]
      "Year" = true ∧
    createCommand ⟨["X"], .node [] []⟩ (.text (.obj
      [("CmdName", JTree.str "X"), ("CmdUuid", JTree.str "u"),
       ("Year", JTree.int 1), ("Month", JTree.int 1),
       ("Day", JTree.int 1)])) ≠ .ok ⟨[]⟩ :=
  ⟨rfl, C10_date_shaped_payload_rejected ⟨["X"], .node [] []⟩ _ ⟨[]⟩
    rfl rfl rfl⟩

/-- C8 counterexample: a well-formed payload whose name is registered but
whose top level carries `Year`/`Month`/`Day` raises the third error kind
(`values[...]` lookup failure), which is neither a `ParseError` nor a
`ResolutionError` — so the two listed situations are not exhaustive and
well-formed registered payloads can still raise. -/
theorem C8_createCommand_errors_counterexample :
    createCommand ⟨["X"], .node [] []⟩ (.text (.obj
      [("CmdName", JTree.str "X"), ("CmdUuid", JTree.str "u"),
       ("Year", JTree.int 1), ("Month", JTree.int 1),
       ("Day", JTree.int 1)])) = .error .lookupError ∧
    FactoryError.lookupError ≠ FactoryError.parseError ∧
    FactoryError.lookupError ≠ FactoryError.resolutionError :=
  ⟨rfl, by decide, by decide⟩

/-- C8 (amended): `createCommand` raises a parse error on malformed text
or when the decode hook raises; a resolution error when the decoded
mapping's name is not registered in the resolved namespace; and
additionally a lookup error when the decoded top level is not a field
mapping (e.g. date-shaped) or lacks `CmdName`; payloads that decode to a
mapping whose registered name resolves return the instance without
raising. All errors propagate to the caller; nothing is retried. -/
theorem C8_createCommand_errors_amended :
    (∀ reg : Registry, createCommand reg .malformed = .error .parseError) ∧
    (∀ (reg : Registry) (t : JTree), decode t = none →
      createCommand reg (.text t) = .error .parseError) ∧
    (∀ (reg : Registry) (t : JTree) (v : JValue), decode t = some v →
      (∀ fs, v ≠ .obj fs) →
      createCommand reg (.text t) = .error .lookupError) ∧
    (∀ (reg : Registry) (t : JTree) (dfields : List (String × JValue)),
      decode t = some (.obj dfields) →
      lookupField dfields CmdNameKey = none →
      createCommand reg (.text t) = .error .lookupError) ∧
    (∀ (reg : Registry) (t : JTree) (dfields : List (String × JValue))
        (name : String),
      decode t = some (.obj dfields) →
      lookupField dfields CmdNameKey = some (.str name) →
      hasKey dfields CmdTargetId = false →
      classFromName reg name = false →
      createCommand reg (.text t) = .error .resolutionError) ∧
    (∀ (reg : Registry) (t : JTree) (dfields : List (String × JValue))
        (name : String),
      decode t = some (.obj dfields) →
      lookupField dfields CmdNameKey = some (.str name) →
      hasKey dfields CmdTargetId = false →
      classFromName reg name = true →
      createCommand reg (.text t) = .ok ⟨dfields⟩) ∧
    (∀ (reg : Registry) (t : JTree) (dfields : List (String × JValue))
        (name tid : String),
      decode t = some (.obj dfields) →
      lookupField dfields CmdNameKey = some (.str name) →
      lookupField dfields CmdTargetId = some (.str tid) →
      targetClassFromName reg name tid = false →
      createCommand reg (.text t) = .error .resolutionError) ∧
    (∀ (reg : Registry) (t : JTree) (dfields : List (String × JValue))
        (name tid : String),
      decode t = some (.obj dfields) →
      lookupField dfields CmdNameKey = some (.str name) →
      lookupField dfields CmdTargetId = some (.str tid) →
      targetClassFromName reg name tid = true →
      createCommand reg (.text t) = .ok ⟨dfields⟩) := by
  refine ⟨?_, ?_, ?_, ?_, ?_, ?_, ?_, ?_⟩
  · intro reg
    rfl
  · intro reg t h
    simp [createCommand, h]
  · intro reg t v hdec hno
    cases v with
    | obj fs => exact absurd rfl (hno fs)
    | str s => simp [createCommand, hdec]
    | int n => simp [createCommand, hdec]
    | bool b => simp [createCommand, hdec]
    | null => simp [createCommand, hdec]
    | date y m dd => simp [createCommand, hdec]
    | datetime y m dd h2 mi s2 => simp [createCommand, hdec]
    | arr xs => simp [createCommand, hdec]
    | cmd fs => simp [createCommand, hdec]
  · intro reg t dfields hdec hname
    simp [createCommand, hdec, hname]
  · intro reg t dfields name hdec hname htid hreg
    simp [createCommand, hdec, hname, htid, hreg]
  · intro reg t dfields name hdec hname htid hreg
    exact createCommand_ok_core reg t dfields name hdec hname htid hreg
  · intro reg t dfields name tid hdec hname htid hreg
    simp [createCommand, hdec, hname, lookupField_hasKey htid, htid, hreg]
  · intro reg t dfields name tid hdec hname htid hreg
    exact createCommand_ok_target reg t dfields name tid hdec hname htid hreg

/-- Witness for C8: one concrete input per amended error/success shape,
including the plugin (`TargetId`) resolution branch. -/
theorem C8_createCommand_errors_amended_witness :
    createCommand ⟨["X"], .node [] []⟩ .malformed = .error .parseError ∧
    createCommand ⟨["X"], .node [] []⟩ (.text (.obj
      [("Year", JTree.str "oops"), ("Month", JTree.int 1),
       ("Day", JTree.int 1)])) = .error .parseError ∧
    createCommand ⟨["X"], .node [] []⟩ (.text (.int 5)) =
      .error .lookupError ∧
    createCommand ⟨["X"], .node [] []⟩ (.text (.obj
      [("A", JTree.int 1)])) = .error .lookupError ∧
    createCommand ⟨["X"], .node [] []⟩ (.text (.obj
      [("CmdName", JTree.str "Nope"), ("CmdUuid", JTree.str "u")])) =
      .error .resolutionError ∧
    createCommand ⟨["X"], .node [] []⟩ (.text (.obj
      [("CmdName", JTree.str "X"), ("CmdUuid", JTree.str "u")])) =
      .ok ⟨[("CmdName", .str "X"), ("CmdUuid", .str "u")]⟩ ∧
    createCommand ⟨[], .node [] [("osnma", .node ["PluginCmd"] [])]⟩
      (.text (.obj [("CmdName", JTree.str "Nope"),
        ("CmdUuid", JTree.str "u"),
        ("CmdTargetId", JTree.str "osnma")])) = .error .resolutionError ∧
    createCommand ⟨[], .node [] [("osnma", .node ["PluginCmd"] [])]⟩
      (.text (.obj [("CmdName", JTree.str "PluginCmd"),
        ("CmdUuid", JTree.str "u"),
        ("CmdTargetId", JTree.str "osnma")])) =
      .ok ⟨[("CmdName", .str "PluginCmd"), ("CmdUuid", .str "u"),
        ("CmdTargetId", .str "osnma")]⟩ :=
  ⟨C8_createCommand_errors_amended.1 ⟨["X"], .node [] []⟩,
   C8_createCommand_errors_amended.2.1 ⟨["X"], .node [] []⟩ _ rfl,
   C8_createCommand_errors_amended.2.2.1 ⟨["X"], .node [] []⟩ _ (.int 5)
     rfl (fun _ h => JValue.noConfusion h),
   C8_createCommand_errors_amended.2.2.2.1 ⟨["X"], .node [] []⟩ _
     [("A", .int 1)] rfl rfl,
   C8_createCommand_errors_amended.2.2.2.2.1 ⟨["X"], .node [] []⟩ _
     [("CmdName", .str "Nope"), ("CmdUuid", .str "u")] "Nope" rfl rfl rfl
     rfl,
   C8_createCommand_errors_amended.2.2.2.2.2.1 ⟨["X"], .node [] []⟩ _
     [("CmdName", .str "X"), ("CmdUuid", .str "u")] "X" rfl rfl rfl rfl,
   C8_createCommand_errors_amended.2.2.2.2.2.2.1
     ⟨[], .node [] [("osnma", .node ["PluginCmd"] [])]⟩ _
     [("CmdName", .str "Nope"), ("CmdUuid", .str "u"),
      ("CmdTargetId", .str "osnma")] "Nope" "osnma" rfl rfl rfl rfl,
   C8_createCommand_errors_amended.2.2.2.2.2.2.2
     ⟨[], .node [] [("osnma", .node ["PluginCmd"] [])]⟩ _
     [("CmdName", .str "PluginCmd"), ("CmdUuid", .str "u"),
      ("CmdTargetId", .str "osnma")] "PluginCmd" "osnma" rfl rfl rfl rfl⟩

/-! ## Session receive loop (`waitCommand`, spec 4.4) -/

theorem waitCommand_ok_uuid (reg : Registry) (cmd : Command) :
    ∀ (frames : List Frame) (r : ResultCmd) (rest : List Frame),
      waitCommand reg cmd frames = .ok (r, rest) →
      ∃ u1 u2, cmd.getUuid = some u1 ∧
        r.getRelatedCommand.getUuid = some u2 ∧ beqV u1 u2 = true := by
  intro frames
  induction frames with
  | nil =>
    intro r rest h
    simp [waitCommand] at h
  | cons f frames ih =>
    intro r rest h
    cases f with
    | other k p => exact ih r rest (by simpa [waitCommand] using h)
    | result outer related =>
      simp only [waitCommand] at h
      cases hc : createCommandResult reg outer related with
      | error e => rw [hc] at h; simp at h
      | ok r2 =>
        rw [hc] at h
        replace h : (match cmd.getUuid, r2.getRelatedCommand.getUuid with
          | some u1, some u2 =>
            if beqV u1 u2 = true then Except.ok (r2, frames)
            else waitCommand reg cmd frames
          | _, _ =>
            Except.error (WaitError.factory FactoryError.lookupError)) =
            Except.ok (r, rest) := h
        cases hu1 : cmd.getUuid with
        | none => rw [hu1] at h; simp at h
        | some u1 =>
          rw [hu1] at h
          cases hu2 : r2.getRelatedCommand.getUuid with
          | none => rw [hu2] at h; simp at h
          | some u2 =>
            rw [hu2] at h
            replace h : (if beqV u1 u2 = true then Except.ok (r2, frames)
              else waitCommand reg cmd frames) = Except.ok (r, rest) := h
            by_cases hb : beqV u1 u2 = true
            · rw [if_pos hb] at h
              injection h with h2
              injection h2 with hr hrest
              subst hr
              exact ⟨u1, u2, rfl, hu2, hb⟩
            · rw [if_neg hb] at h
              rw [← hu1]
              exact ih r rest h

/-- C1: `waitCommand cmd` run against a frame sequence of N skippable
frames (non-`Result` kinds, or well-formed Results whose related-command
UUID differs from `cmd`'s) followed by a Result whose related command's
UUID equals `cmd.getUuid()` consumes all N preceding frames and returns
exactly that Result; and whenever it returns a Result at all, that
Result's related-command UUID equals `cmd`'s. -/
theorem C1_waitCommand_correlation :
    (∀ (reg : Registry) (cmd : Command) (pre rest : List Frame)
        (outer related : JTree) (r : ResultCmd) (u1 u2 : JValue),
      (∀ f ∈ pre, Skippable reg cmd f) →
      createCommandResult reg outer related = .ok r →
      cmd.getUuid = some u1 → r.getRelatedCommand.getUuid = some u2 →
      beqV u1 u2 = true →
      waitCommand reg cmd (pre ++ .result outer related :: rest) =
        .ok (r, rest)) ∧
    (∀ (reg : Registry) (cmd : Command) (frames : List Frame)
        (r : ResultCmd) (rest : List Frame),
      waitCommand reg cmd frames = .ok (r, rest) →
      ∃ u1 u2, cmd.getUuid = some u1 ∧
        r.getRelatedCommand.getUuid = some u2 ∧ beqV u1 u2 = true) := by
  constructor
  · intro reg cmd pre
    induction pre with
    | nil =>
      intro rest outer related r u1 u2 hskip hres hu1 hu2 hb
      simp [waitCommand, hres, hu1, hu2, hb]
    | cons f pre ih =>
      intro rest outer related r u1 u2 hskip hres hu1 hu2 hb
      have hsf := hskip f (by simp)
      have hrest : ∀ g ∈ pre, Skippable reg cmd g := fun g hg =>
        hskip g (by simp [hg])
      have hiv := ih rest outer related r u1 u2 hrest hres hu1 hu2 hb
      rcases hsf with ⟨k, p, rfl, hk⟩ |
        ⟨o, rel, r2, v1, v2, rfl, hc2, hv1, hv2, hbf⟩
      · simpa [waitCommand] using hiv
      · simp only [List.cons_append, waitCommand, hc2, hv1, hv2, hbf]
        simpa using hiv
  · exact fun reg cmd frames r rest h =>
      waitCommand_ok_uuid reg cmd frames r rest h

/-- Witness for C1: an `ApiVersion` frame and a Result for another
command are drained, the matching Result is returned. -/
theorem C1_waitCommand_correlation_witness :
    waitCommand ⟨["SuccessResult", "Ping"], .node [] []⟩
      ⟨[("CmdName", .str "Ping"), ("CmdUuid", .str "\x7bu-target\x7d")]⟩
      [.other 2 [7, 0, 0, 0],
       .result (.obj [("CmdName", JTree.str "SuccessResult"),
           ("CmdUuid", JTree.str "r0"),
           ("RelatedCommand", JTree.str "j0")])
         (.obj [("CmdName", JTree.str "Ping"),
           ("CmdUuid", JTree.str "\x7bu-other\x7d")]),
       .result (.obj [("CmdName", JTree.str "SuccessResult"),
           ("CmdUuid", JTree.str "r1"),
           ("RelatedCommand", JTree.str "j1")])
         (.obj [("CmdName", JTree.str "Ping"),
           ("CmdUuid", JTree.str "\x7bu-target\x7d")])] =
      .ok (⟨[("CmdName", .str "SuccessResult"), ("CmdUuid", .str "r1"),
        ("RelatedCommand", .str "j1")],
        ⟨[("CmdName", .str "Ping"),
          ("CmdUuid", .str "\x7bu-target\x7d")]⟩⟩, []) := by
  have h := C1_waitCommand_correlation.1
    ⟨["SuccessResult", "Ping"], .node [] []⟩
    ⟨[("CmdName", .str "Ping"), ("CmdUuid", .str "\x7bu-target\x7d")]⟩
    [.other 2 [7, 0, 0, 0],
     .result (.obj [("CmdName", JTree.str "SuccessResult"),
         ("CmdUuid", JTree.str "r0"),
         ("RelatedCommand", JTree.str "j0")])
       (.obj [("CmdName", JTree.str "Ping"),
         ("CmdUuid", JTree.str "\x7bu-other\x7d")])]
    []
    (.obj [("CmdName", JTree.str "SuccessResult"),
      ("CmdUuid", JTree.str "r1"), ("RelatedCommand", JTree.str "j1")])
    (.obj [("CmdName", JTree.str "Ping"),
      ("CmdUuid", JTree.str "\x7bu-target\x7d")])
    ⟨[("CmdName", .str "SuccessResult"), ("CmdUuid", .str "r1"),
      ("RelatedCommand", .str "j1")],
      ⟨[("CmdName", .str "Ping"), ("CmdUuid", .str "\x7bu-target\x7d")]⟩⟩
    (.str "\x7bu-target\x7d") (.str "\x7bu-target\x7d")
    ?hskip rfl rfl rfl rfl
  · exact h
  · intro f hf
    simp only [List.mem_cons, List.not_mem_nil, or_false] at hf
    rcases hf with rfl | rfl
    · exact Or.inl ⟨2, [7, 0, 0, 0], rfl, by decide⟩
    · exact Or.inr ⟨_, _,
        ⟨[("CmdName", .str "SuccessResult"), ("CmdUuid", .str "r0"),
          ("RelatedCommand", .str "j0")],
          ⟨[("CmdName", .str "Ping"),
            ("CmdUuid", .str "\x7bu-other\x7d")]⟩⟩,
        .str "\x7bu-target\x7d", .str "\x7bu-other\x7d",
        rfl, rfl, rfl, rfl, rfl⟩

/-! ## Wire format (spec 6, `_sendMessage`/`_getPacketSize`/`waitCommand`
reads) -/

theorem toLE_length : ∀ (w n : Nat), (toLE w n).length = w
  | 0, _ => rfl
  | w + 1, n => by simp [toLE, toLE_length w (n / 256)]

theorem fromLE_toLE : ∀ (w n : Nat), fromLE (toLE w n) = n % 2 ^ (8 * w)
  | 0, n => by simp [toLE, fromLE, Nat.mod_one]
  | w + 1, n => by
    have ih := fromLE_toLE w (n / 256)
    have h28 : 2 ^ (8 * (w + 1)) = 256 * 2 ^ (8 * w) := by
      rw [Nat.mul_succ, pow_add]
      ring
    rw [toLE, fromLE, ih, h28, Nat.mod_mul]

theorem takeBytes_exact (a b : List Nat) :
    takeBytes a.length (a ++ b) = some (a, b) := by
  simp [takeBytes, List.take_left, List.drop_left]

theorem takeBytes_of_length (n : Nat) (a b : List Nat)
    (h : a.length = n) : takeBytes n (a ++ b) = some (a, b) := by
  subst h
  exact takeBytes_exact a b

/-- C6: a sent frame is the 2-byte little-endian length of everything that
follows (one kind byte plus the payload), then the kind byte, then the
payload — with the length field decoding back to that byte count when it
fits 16 bits; and the Result-payload read consumes a 4-byte little-endian
signed length followed by exactly that many bytes, the final NUL byte being
counted in the length and stripped. -/
theorem C6_wire_format :
    (∀ (msgId : Nat) (payload : List Nat),
      sendFrame msgId payload =
        toLE 2 (payload.length + 1) ++ msgId % 256 :: payload) ∧
    (∀ payload : List Nat, payload.length + 1 < 2 ^ 16 →
      fromLE (toLE 2 (payload.length + 1)) = payload.length + 1) ∧
    (∀ (text rest : List Nat), text.length + 1 < 2 ^ 31 →
      readResultPayload (toLE 4 (text.length + 1) ++ (text ++ 0 :: rest)) =
        some (text, rest)) := by
  refine ⟨?_, ?_, ?_⟩
  · intro msgId payload
    simp [sendFrame, sendMessage, msgId2Packet]
  · intro payload h
    rw [fromLE_toLE]
    exact Nat.mod_eq_of_lt (lt_of_lt_of_le h (by norm_num))
  · intro text rest h
    have h4 : (toLE 4 (text.length + 1)).length = 4 := toLE_length 4 _
    simp only [readResultPayload]
    rw [takeBytes_of_length 4 (toLE 4 (text.length + 1))
      (text ++ 0 :: rest) h4]
    have hu : fromLE (toLE 4 (text.length + 1)) = text.length + 1 := by
      rw [fromLE_toLE]
      exact Nat.mod_eq_of_lt (lt_of_lt_of_le h (by norm_num))
    have hle : fromLE32i (toLE 4 (text.length + 1)) =
        ((text.length + 1 : Nat) : Int) := by
      simp only [fromLE32i, hu]
      rw [if_pos (by exact_mod_cast h)]
    simp only [hle]
    rw [if_neg (by omega)]
    rw [show ((text.length + 1 : Nat) : Int).toNat = text.length + 1 by simp]
    rw [show text ++ 0 :: rest = (text ++ [0]) ++ rest by simp]
    rw [show text.length + 1 = (text ++ [0]).length by simp]
    rw [takeBytes_exact]
    simp

/-- Witness for C6. -/
theorem C6_wire_format_witness :
    sendFrame 1 [65, 66] = toLE 2 ([65, 66].length + 1) ++ 1 % 256 ::
      [65, 66] ∧
    fromLE (toLE 2 ([65, 66].length + 1)) = [65, 66].length + 1 ∧
    readResultPayload (toLE 4 ([65].length + 1) ++ ([65] ++ 0 :: [9])) =
      some ([65], [9]) :=
  ⟨C6_wire_format.1 1 [65, 66], C6_wire_format.2.1 [65, 66] (by norm_num),
   C6_wire_format.2.2 [65] [9] (by norm_num)⟩

/-! ## Version negotiation (`getServerApiVersion`, spec 4.4) -/

theorem apiVersionLoop_skip (k : Nat) (p tail : List Nat) (fuel : Nat)
    (hk : k < 256) (hk2 : k ≠ 2) (hp : p.length + 1 < 2 ^ 16) :
    apiVersionLoop (fuel + 1) (sendFrame k p ++ tail) =
      apiVersionLoop fuel tail := by
  have hshape : sendFrame k p ++ tail =
      toLE 2 (p.length + 1) ++ (k % 256 :: (p ++ tail)) := by
    simp [sendFrame, sendMessage, msgId2Packet]
  rw [hshape]
  simp only [apiVersionLoop, getPacketSize]
  rw [takeBytes_of_length 2 (toLE 2 (p.length + 1))
    (k % 256 :: (p ++ tail)) (toLE_length 2 _)]
  simp only [Option.map_some']
  rw [show takeBytes 1 (k % 256 :: (p ++ tail)) =
      some ([k % 256], p ++ tail) from takeBytes_exact [k % 256] (p ++ tail)]
  show (if fromLE [k % 256] = 2 then
      (match takeBytes 4 (p ++ tail) with
       | none => none
       | some (vb, s3) => some (fromLE vb, s3))
    else
      (match takeBytes (fromLE (toLE 2 (p.length + 1)) - 1) (p ++ tail) with
       | none => none
       | some (_, s3) => apiVersionLoop fuel s3)) = apiVersionLoop fuel tail
  have hk256 : k % 256 = k := Nat.mod_eq_of_lt hk
  rw [show fromLE [k % 256] = k by simp [fromLE, hk256]]
  rw [if_neg hk2]
  rw [fromLE_toLE, Nat.mod_eq_of_lt (lt_of_lt_of_le hp (by norm_num))]
  rw [show p.length + 1 - 1 = p.length from rfl]
  rw [takeBytes_exact p tail]

theorem apiVersionLoop_final (v : Nat) (rest : List Nat) (fuel : Nat)
    (hv : v < 2 ^ 32) :
    apiVersionLoop (fuel + 1) (sendFrame 2 (toLE 4 v) ++ rest) =
      some (v, rest) := by
  have hshape : sendFrame 2 (toLE 4 v) ++ rest =
      toLE 2 5 ++ (2 % 256 :: (toLE 4 v ++ rest)) := by
    simp [sendFrame, sendMessage, msgId2Packet, toLE_length]
  rw [hshape]
  simp only [apiVersionLoop, getPacketSize]
  rw [takeBytes_of_length 2 (toLE 2 5) (2 % 256 :: (toLE 4 v ++ rest))
    (toLE_length 2 _)]
  simp only [Option.map_some']
  rw [show takeBytes 1 (2 % 256 :: (toLE 4 v ++ rest)) =
      some ([2 % 256], toLE 4 v ++ rest) from
    takeBytes_exact [2 % 256] (toLE 4 v ++ rest)]
  show (if fromLE [2 % 256] = 2 then
      (match takeBytes 4 (toLE 4 v ++ rest) with
       | none => none
       | some (vb, s3) => some (fromLE vb, s3))
    else
      (match takeBytes (fromLE (toLE 2 5) - 1) (toLE 4 v ++ rest) with
       | none => none
       | some (_, s3) => apiVersionLoop fuel s3)) = some (v, rest)
  rw [if_pos (show fromLE [2 % 256] = 2 from rfl)]
  rw [takeBytes_of_length 4 (toLE 4 v) rest (toLE_length 4 _)]
  show some (fromLE (toLE 4 v), rest) = some (v, rest)
  rw [fromLE_toLE, Nat.mod_eq_of_lt (by simpa using hv)]

/-- C7: `getServerApiVersion` first writes an `ApiVersion` frame carrying
the client's protocol version as 4 little-endian bytes; its receive loop
then skips every earlier frame of any other kind — consuming that frame's
entire payload — and returns the 4-byte little-endian payload of the first
`ApiVersion` frame, leaving exactly the bytes after it. -/
theorem C7_version_negotiation :
    (∀ (clientVersion fuel : Nat) (s : List Nat),
      (getServerApiVersion clientVersion fuel s).1 =
        toLE 2 5 ++ 2 :: toLE 4 clientVersion) ∧
    (∀ (pre : List (Nat × List Nat)),
      (∀ f ∈ pre, f.1 < 256 ∧ f.1 ≠ 2 ∧ f.2.length + 1 < 2 ^ 16) →
      ∀ (clientVersion v : Nat) (rest : List Nat) (fuel : Nat),
        v < 2 ^ 32 → pre.length < fuel →
        (getServerApiVersion clientVersion fuel
            (framesBytes pre ++ sendFrame 2 (toLE 4 v) ++ rest)).2 =
          some (v, rest)) := by
  constructor
  · intro clientVersion fuel s
    simp [getServerApiVersion, sendFrame, sendMessage, msgId2Packet,
      toLE_length]
  · intro pre
    induction pre with
    | nil =>
      intro hpre clientVersion v rest fuel hv hfuel
      cases fuel with
      | zero => omega
      | succ f =>
        simpa [getServerApiVersion, framesBytes] using
          apiVersionLoop_final v rest f hv
    | cons f pre ih =>
      obtain ⟨k, p⟩ := f
      intro hpre clientVersion v rest fuel hv hfuel
      obtain ⟨hk, hk2, hp⟩ := hpre (k, p) (by simp)
      have hpre2 : ∀ g ∈ pre, g.1 < 256 ∧ g.1 ≠ 2 ∧ g.2.length + 1 < 2 ^ 16 :=
        fun g hg => hpre g (by simp [hg])
      cases fuel with
      | zero => omega
      | succ f2 =>
        have hrec := ih hpre2 clientVersion v rest f2 hv (by simpa using hfuel)
        simp only [getServerApiVersion, framesBytes, List.append_assoc]
        rw [← List.append_assoc (framesBytes pre)]
        rw [show framesBytes pre ++ sendFrame 2 (toLE 4 v) ++ rest =
          framesBytes pre ++ (sendFrame 2 (toLE 4 v) ++ rest) by simp]
        rw [apiVersionLoop_skip k p _ f2 hk hk2 hp]
        simpa [getServerApiVersion] using hrec

/-- Witness for C7: a Result frame for another command then
`ApiVersion(7)` returns `7`, the Result payload fully consumed. -/
theorem C7_version_negotiation_witness :
    (getServerApiVersion 3 2 (framesBytes [(1, [9, 9])] ++
        sendFrame 2 (toLE 4 7) ++ [])).1 =
      toLE 2 5 ++ 2 :: toLE 4 3 ∧
    (getServerApiVersion 3 2 (framesBytes [(1, [9, 9])] ++
        sendFrame 2 (toLE 4 7) ++ [])).2 = some (7, []) :=
  ⟨C7_version_negotiation.1 3 2 _,
   C7_version_negotiation.2 [(1, [9, 9])]
     (by intro f hf; simp at hf; subst hf; refine ⟨by norm_num, by norm_num,
       by norm_num⟩)
     3 7 [] 2 (by norm_num) (by norm_num)⟩

/-! ## Exact-size blocking read (`_getPacket`, spec 4.1/7) -/

theorem recv_spec {n : Nat} {s : ByteStream} {chunk : List Nat}
    {s2 : ByteStream} (h : recv n s = some (chunk, s2)) :
    s.avail = chunk ++ s2.avail ∧ s2.eof = s.eof ∧ chunk.length ≤ n ∧
    (s.WF → s2.WF) := by
  obtain ⟨cs, eo⟩ := s
  by_cases h0 : n = 0
  · subst h0
    simp only [recv, if_pos rfl] at h
    injection h with h1
    injection h1 with hc hs
    subst hc
    subst hs
    simp
  · simp only [recv, if_neg h0] at h
    cases cs with
    | nil =>
      cases eo with
      | false => simp at h
      | true =>
        simp only [if_pos rfl] at h
        injection h with h1
        injection h1 with hc hs
        subst hc
        subst hs
        simp
    | cons c rest =>
      injection h with h1
      injection h1 with hc hs
      subst hc
      subst hs
      refine ⟨?_, rfl, by simp, ?_⟩
      · by_cases hd : (c.drop n).isEmpty
        · have hd2 : c.drop n = [] := by simpa [List.isEmpty_iff] using hd
          have htake : c.take n = c := by
            have h3 := List.take_append_drop n c
            rw [hd2] at h3
            simpa using h3
          simp [ByteStream.avail, hd, htake]
        · simp only [ByteStream.avail, if_neg hd]
          rw [show (c :: rest).flatten = c ++ rest.flatten from rfl,
            show ((c.drop n :: rest)).flatten = c.drop n ++ rest.flatten
              from rfl]
          rw [← List.append_assoc, List.take_append_drop]
      · intro hwf c2 hc2
        by_cases hd : (c.drop n).isEmpty
        · rw [if_pos hd] at hc2
          exact hwf c2 (by simp [hc2])
        · rw [if_neg hd] at hc2
          rcases List.mem_cons.mp hc2 with rfl | hm
          · simpa [List.isEmpty_iff] using hd
          · exact hwf c2 (by simp [hm])

theorem recv_none_eof {n : Nat} {s : ByteStream}
    (h : recv n s = none) : s.eof = false ∧ s.chunks = [] ∧ n ≠ 0 := by
  obtain ⟨cs, eo⟩ := s
  by_cases h0 : n = 0
  · subst h0
    simp [recv] at h
  · simp only [recv, if_neg h0] at h
    cases cs with
    | nil =>
      cases eo with
      | false => exact ⟨rfl, rfl, h0⟩
      | true => simp at h
    | cons c rest => simp at h

theorem recv_empty_chunk {n : Nat} {s : ByteStream} {s2 : ByteStream}
    (h0 : n ≠ 0) (hwf : s.WF) (h : recv n s = some ([], s2)) :
    s.chunks = [] ∧ s.eof = true := by
  obtain ⟨cs, eo⟩ := s
  simp only [recv, if_neg h0] at h
  cases cs with
  | nil =>
    cases eo with
    | false => simp at h
    | true => exact ⟨rfl, rfl⟩
  | cons c rest =>
    injection h with h1
    injection h1 with hc hs
    have hcne : c ≠ [] := hwf c (by simp)
    have : c.take n ≠ [] := by
      intro he
      have := congrArg List.length he
      simp [List.length_take] at this
      rcases this with h1 | h2
      · exact h0 h1
      · exact hcne h2
    exact absurd hc this

theorem getPacketLoop_ok (size : Nat) :
    ∀ (fuel : Nat) (packet : List Nat) (s : ByteStream) (bytes : List Nat)
      (s2 : ByteStream),
      getPacketLoop fuel size packet s = .ok bytes s2 →
      bytes.length = size ∧ ∃ t, bytes = packet ++ t ∧
        s.avail = t ++ s2.avail ∧ s2.eof = s.eof := by
  intro fuel
  induction fuel with
  | zero =>
    intro packet s bytes s2 h
    unfold getPacketLoop at h
    by_cases hl : packet.length = size
    · rw [if_pos hl] at h
      injection h with h1 h2
      subst h1
      subst h2
      exact ⟨hl, [], by simp, by simp, rfl⟩
    · rw [if_neg hl] at h
      simp at h
  | succ fuel ih =>
    intro packet s bytes s2 h
    unfold getPacketLoop at h
    by_cases hl : packet.length = size
    · rw [if_pos hl] at h
      injection h with h1 h2
      subst h1
      subst h2
      exact ⟨hl, [], by simp, by simp, rfl⟩
    · rw [if_neg hl] at h
      replace h : (match recv (size - packet.length) s with
        | none => ReadOutcome.blocked
        | some (chunk, s3) =>
          if chunk.length = 0 then ReadOutcome.connClosed
          else getPacketLoop fuel size (packet ++ chunk) s3) =
          ReadOutcome.ok bytes s2 := h
      cases hr : recv (size - packet.length) s with
      | none => rw [hr] at h; simp at h
      | some pr =>
        obtain ⟨chunk, s3⟩ := pr
        rw [hr] at h
        replace h : (if chunk.length = 0 then ReadOutcome.connClosed
          else getPacketLoop fuel size (packet ++ chunk) s3) =
          ReadOutcome.ok bytes s2 := h
        by_cases hch : chunk.length = 0
        · rw [if_pos hch] at h
          simp at h
        · rw [if_neg hch] at h
          obtain ⟨hlen, t2, hbytes, havail, heof⟩ := ih _ _ _ _ h
          obtain ⟨hav, heo, _, _⟩ := recv_spec hr
          refine ⟨hlen, chunk ++ t2, by simp [hbytes], ?_, heof.trans heo⟩
          rw [hav, havail]
          simp

theorem getPacketLoop_blocked (size : Nat) :
    ∀ (fuel : Nat) (packet : List Nat) (s : ByteStream),
      s.WF → s.eof = false → s.avail.length + packet.length < size →
      getPacketLoop fuel size packet s = .blocked := by
  intro fuel
  induction fuel with
  | zero =>
    intro packet s hwf heof hlt
    unfold getPacketLoop
    rw [if_neg (by omega)]
  | succ fuel ih =>
    intro packet s hwf heof hlt
    unfold getPacketLoop
    rw [if_neg (by omega)]
    show (match recv (size - packet.length) s with
      | none => ReadOutcome.blocked
      | some (chunk, s3) =>
        if chunk.length = 0 then ReadOutcome.connClosed
        else getPacketLoop fuel size (packet ++ chunk) s3) =
        ReadOutcome.blocked
    cases hr : recv (size - packet.length) s with
    | none => rfl
    | some pr =>
      obtain ⟨chunk, s3⟩ := pr
      obtain ⟨hav, heo, hle, hwf2⟩ := recv_spec hr
      show (if chunk.length = 0 then ReadOutcome.connClosed
        else getPacketLoop fuel size (packet ++ chunk) s3) =
        ReadOutcome.blocked
      have hn0 : size - packet.length ≠ 0 := by omega
      by_cases hch : chunk.length = 0
      · exfalso
        have hce : chunk = [] := List.eq_nil_of_length_eq_zero hch
        subst hce
        obtain ⟨hc0, he⟩ := recv_empty_chunk hn0 hwf hr
        rw [he] at heof
        exact Bool.noConfusion heof
      · rw [if_neg hch]
        apply ih
        · exact hwf2 hwf
        · rw [heo, heof]
        · have hlen := congrArg List.length hav
          simp at hlen
          simp [List.length_append]
          omega

theorem getPacketLoop_closed (size : Nat) :
    ∀ (fuel : Nat) (packet : List Nat) (s : ByteStream),
      s.WF → s.eof = true → s.avail.length + packet.length < size →
      s.avail.length < fuel →
      getPacketLoop fuel size packet s = .connClosed := by
  intro fuel
  induction fuel with
  | zero =>
    intro packet s hwf heof hlt hfuel
    omega
  | succ fuel ih =>
    intro packet s hwf heof hlt hfuel
    unfold getPacketLoop
    rw [if_neg (by omega)]
    show (match recv (size - packet.length) s with
      | none => ReadOutcome.blocked
      | some (chunk, s3) =>
        if chunk.length = 0 then ReadOutcome.connClosed
        else getPacketLoop fuel size (packet ++ chunk) s3) =
        ReadOutcome.connClosed
    cases hr : recv (size - packet.length) s with
    | none =>
      exfalso
      obtain ⟨he, _, _⟩ := recv_none_eof hr
      rw [heof] at he
      exact Bool.noConfusion he
    | some pr =>
      obtain ⟨chunk, s3⟩ := pr
      obtain ⟨hav, heo, hle, hwf2⟩ := recv_spec hr
      show (if chunk.length = 0 then ReadOutcome.connClosed
        else getPacketLoop fuel size (packet ++ chunk) s3) =
        ReadOutcome.connClosed
      by_cases hch : chunk.length = 0
      · rw [if_pos hch]
      · rw [if_neg hch]
        have hlen := congrArg List.length hav
        simp at hlen
        apply ih
        · exact hwf2 hwf
        · rw [heo, heof]
        · simp [List.length_append]
          omega
        · omega

theorem getPacketLoop_closed_inv (size : Nat) :
    ∀ (fuel : Nat) (packet : List Nat) (s : ByteStream),
      s.WF → packet.length ≤ size →
      getPacketLoop fuel size packet s = .connClosed →
      s.eof = true ∧ s.avail.length + packet.length < size := by
  intro fuel
  induction fuel with
  | zero =>
    intro packet s hwf hle h
    unfold getPacketLoop at h
    by_cases hl : packet.length = size
    · rw [if_pos hl] at h
      simp at h
    · rw [if_neg hl] at h
      simp at h
  | succ fuel ih =>
    intro packet s hwf hle h
    unfold getPacketLoop at h
    by_cases hl : packet.length = size
    · rw [if_pos hl] at h
      simp at h
    · rw [if_neg hl] at h
      replace h : (match recv (size - packet.length) s with
        | none => ReadOutcome.blocked
        | some (chunk, s3) =>
          if chunk.length = 0 then ReadOutcome.connClosed
          else getPacketLoop fuel size (packet ++ chunk) s3) =
          ReadOutcome.connClosed := h
      have hn0 : size - packet.length ≠ 0 := by omega
      cases hr : recv (size - packet.length) s with
      | none => rw [hr] at h; simp at h
      | some pr =>
        obtain ⟨chunk, s3⟩ := pr
        rw [hr] at h
        replace h : (if chunk.length = 0 then ReadOutcome.connClosed
          else getPacketLoop fuel size (packet ++ chunk) s3) =
          ReadOutcome.connClosed := h
        obtain ⟨hav, heo, hcle, hwf2⟩ := recv_spec hr
        by_cases hch : chunk.length = 0
        · have hce : chunk = [] := List.eq_nil_of_length_eq_zero hch
          subst hce
          obtain ⟨hc0, he⟩ := recv_empty_chunk hn0 hwf hr
          refine ⟨he, ?_⟩
          have : s.avail = [] := by simp [ByteStream.avail, hc0]
          rw [this]
          simpa using lt_of_le_of_ne hle hl
        · rw [if_neg hch] at h
          obtain ⟨he3, hlt3⟩ := ih (packet ++ chunk) s3 (hwf2 hwf)
            (by simp [List.length_append]; omega) h
          have hlen := congrArg List.length hav
          simp at hlen
          refine ⟨heo ▸ he3, ?_⟩
          simp [List.length_append] at hlt3
          omega

/-- C3: on a well-formed stream, `_getPacket(size)` returns exactly `size`
bytes — the prefix of the buffered data, accumulated across successive
`recv` calls; while fewer bytes are buffered and the peer has not closed
it stays blocked (never errors, for any number of loop steps); and, given
enough loop steps to drain the buffer, it raises the connection-closed
error exactly when the peer has closed before `size` bytes were
available — the zero-byte read being the only trigger. -/
theorem C3_getPacket_exact_read :
    ∀ (fuel size : Nat) (s : ByteStream), s.WF →
      (∀ (bytes : List Nat) (s2 : ByteStream),
        getPacket fuel size s = .ok bytes s2 →
        bytes.length = size ∧ s.avail = bytes ++ s2.avail ∧
          s2.eof = s.eof) ∧
      (s.eof = false → s.avail.length < size →
        getPacket fuel size s = .blocked) ∧
      (s.avail.length < fuel →
        (getPacket fuel size s = .connClosed ↔
          s.eof = true ∧ s.avail.length < size)) := by
  intro fuel size s hwf
  refine ⟨?_, ?_, ?_⟩
  · intro bytes s2 h
    unfold getPacket at h
    cases hr : recv size s with
    | none => rw [hr] at h; simp at h
    | some pr =>
      obtain ⟨packet, s3⟩ := pr
      rw [hr] at h
      replace h : getPacketLoop fuel size packet s3 =
        ReadOutcome.ok bytes s2 := h
      obtain ⟨hlen, t, hbytes, havail, heof⟩ :=
        getPacketLoop_ok size fuel packet s3 bytes s2 h
      obtain ⟨hav, heo, _, _⟩ := recv_spec hr
      refine ⟨hlen, ?_, heof.trans heo⟩
      rw [hav, havail, hbytes]
      simp
  · intro heof hlt
    unfold getPacket
    cases hr : recv size s with
    | none => rfl
    | some pr =>
      obtain ⟨packet, s3⟩ := pr
      show getPacketLoop fuel size packet s3 = ReadOutcome.blocked
      obtain ⟨hav, heo, hle, hwf2⟩ := recv_spec hr
      have hlen := congrArg List.length hav
      simp at hlen
      apply getPacketLoop_blocked
      · exact hwf2 hwf
      · rw [heo, heof]
      · omega
  · intro hfuel
    constructor
    · intro h
      unfold getPacket at h
      cases hr : recv size s with
      | none => rw [hr] at h; simp at h
      | some pr =>
        obtain ⟨packet, s3⟩ := pr
        rw [hr] at h
        replace h : getPacketLoop fuel size packet s3 =
          ReadOutcome.connClosed := h
        obtain ⟨hav, heo, hle, hwf2⟩ := recv_spec hr
        obtain ⟨he3, hlt3⟩ := getPacketLoop_closed_inv size fuel packet s3
          (hwf2 hwf) (by omega) h
        have hlen := congrArg List.length hav
        simp at hlen
        refine ⟨heo ▸ he3, by omega⟩
    · rintro ⟨heof, hlt⟩
      unfold getPacket
      cases hr : recv size s with
      | none =>
        exfalso
        obtain ⟨he, _, _⟩ := recv_none_eof hr
        rw [heof] at he
        exact Bool.noConfusion he
      | some pr =>
        obtain ⟨packet, s3⟩ := pr
        show getPacketLoop fuel size packet s3 = ReadOutcome.connClosed
        obtain ⟨hav, heo, hle, hwf2⟩ := recv_spec hr
        have hlen := congrArg List.length hav
        simp at hlen
        apply getPacketLoop_closed
        · exact hwf2 hwf
        · rw [heo, heof]
        · omega
        · omega

/-- Witness for C3: a 3-byte read over chunked delivery `[1,2] / [3,4]`
accumulates to exactly `[1,2,3]`. -/
theorem C3_getPacket_exact_read_witness :
    ((∀ (bytes : List Nat) (s2 : ByteStream),
        getPacket 5 3 ⟨[[1, 2], [3, 4]], false⟩ = .ok bytes s2 →
        bytes.length = 3 ∧
          ByteStream.avail ⟨[[1, 2], [3, 4]], false⟩ =
            bytes ++ s2.avail ∧
          s2.eof = ByteStream.eof ⟨[[1, 2], [3, 4]], false⟩) ∧
      (ByteStream.eof ⟨[[1, 2], [3, 4]], false⟩ = false →
        (ByteStream.avail ⟨[[1, 2], [3, 4]], false⟩).length < 3 →
        getPacket 5 3 ⟨[[1, 2], [3, 4]], false⟩ = .blocked) ∧
      ((ByteStream.avail ⟨[[1, 2], [3, 4]], false⟩).length < 5 →
        (getPacket 5 3 ⟨[[1, 2], [3, 4]], false⟩ = .connClosed ↔
          ByteStream.eof ⟨[[1, 2], [3, 4]], false⟩ = true ∧
            (ByteStream.avail ⟨[[1, 2], [3, 4]], false⟩).length < 3))) ∧
    getPacket 5 3 ⟨[[1, 2], [3, 4]], false⟩ = .ok [1, 2, 3] ⟨[[4]], false⟩ :=
  ⟨C3_getPacket_exact_read 5 3 ⟨[[1, 2], [3, 4]], false⟩
    (by
      intro c hc
      simp only [List.mem_cons, List.not_mem_nil, or_false] at hc
      rcases hc with rfl | rfl <;> simp), rfl⟩
